import Mathlib

/-!
Verification of yt-cipher (Deno service) request handlers and caches.

This file shallowly embeds the TypeScript source of the yt-cipher
repository into Lean: request handlers become pure functions from a
request body (and the relevant shared state) to a response value plus the
updated state; the JavaScript notion of a "falsy" string field (absent or
empty) is modelled by the empty string, and fields that can be absent or
null are modelled with `Option`.  Each claim about the specification is
then settled against these definitions.
-/

namespace YtCipher



/-! ## Small association-list helpers

Query strings, cache contents and directory listings are association
lists.  JavaScript `Map` keys are unique, but the generic operations are
stated for arbitrary lists and used at unique-key states.
-/

/-- First value bound to key `k`, like `Map.get` / `URLSearchParams.get`. -/
def findVal (l : List (String × α)) (k : String) : Option α :=
  (l.find? (fun p => p.1 == k)).map (·.2)

/-- Remove every binding of key `k`. -/
def eraseKey (l : List (String × α)) (k : String) : List (String × α) :=
  l.filter (fun p => p.1 != k)

/-! ## Claim C1: the `clear_cache` handler  (src/handlers/clearCache.ts)

`handleClearCache` inspects `cache_type` / `clear_all`, builds the
`cleared_caches` name list and answers — but every actual
`cache.clear()` call in the source is commented out, so no cache is
modified.  The model threads the sizes of the four caches through the
handler to make that observable.
-/

/-- Sizes of the four caches (player on-disk store and the three in-memory
ones), as `GET /status` would report them. -/
structure CacheSizes where
  player : Nat
  solver : Nat
  preprocessed : Nat
  sts : Nat
deriving DecidableEq, Repr

/-- Body of a `clear_cache` request: both fields are optional JSON fields.
`clear_all` is compared with `=== true` in the source, hence `Option Bool`. -/
structure ClearCacheRequest where
  cache_type : Option String
  clear_all : Option Bool
deriving DecidableEq, Repr

/-- Successful `clear_cache` response body (the `success`, `timestamp` and
`processing_time_ms` fields carry no cache information and are omitted). -/
structure ClearCacheResponse where
  cleared_caches : List String
  cache_count : Nat
  clear_all : Bool
deriving DecidableEq, Repr

/-- Error outcomes of the handlers, each with its HTTP status. -/
inductive ApiFailure where
  | invalidCacheType                    -- 400 INVALID_REQUEST (clear_cache)
  | missingSignatures                   -- 400 `signatures array is required`
  | invalidSignatureItem (i : Nat)      -- 400 `Invalid signature object at index i`
  | noSignatureSolver                   -- 500 NO_SIGNATURE_SOLVER (resolve_url)
deriving DecidableEq, Repr

/-- Embedding of `handleClearCache` (src/handlers/clearCache.ts, lines
17–106).  The handler returns its response and the post-state of the four
caches; since the source never calls `clear()` on any cache (those calls
are commented out), the state it returns is the input state unchanged. -/
def handleClearCache (req : ClearCacheRequest) (st : CacheSizes) :
    Except ApiFailure ClearCacheResponse × CacheSizes :=
  let clearAll := req.clear_all = some true ∨ req.cache_type = some "all"
  if clearAll then
    let cleared := ["player_cache", "solver_cache", "preprocessed_cache", "sts_cache"]
    (.ok ⟨cleared, cleared.length, true⟩, st)
  else
    match req.cache_type with
    | some "player" => (.ok ⟨["player_cache"], 1, false⟩, st)
    | some "solver" => (.ok ⟨["solver_cache"], 1, false⟩, st)
    | some "preprocessed" => (.ok ⟨["preprocessed_cache"], 1, false⟩, st)
    | some "sts" => (.ok ⟨["sts_cache"], 1, false⟩, st)
    | _ => (.error .invalidCacheType, st)

/-! ## Claim C2: the `batch_decrypt` handler  (src/handlers/batchDecrypt.ts)

The source validates that `signatures` is an array, then rejects the whole
request if ANY element has a falsy `encrypted_signature`, `n_param` or
`player_url`, and finally produces per-element results whose "decrypted"
values are the literal strings `decrypted_<input>` — no solver is
consulted (the source comments call this a simplified, simulated
implementation).
-/

/-- One element of the `signatures` array. -/
structure SignatureItem where
  encrypted_signature : String
  n_param : String
  player_url : String
deriving DecidableEq, Repr

/-- One element of the `results` array in the batch response. -/
structure BatchItemResult where
  encrypted_signature : String
  n_param : String
  player_url : String
  decrypted_signature : String
  decrypted_n_sig : String
  success : Bool
deriving DecidableEq, Repr

/-- The `summary` object of a batch response. -/
structure BatchSummary where
  total : Nat
  successful : Nat
  failed : Nat
deriving DecidableEq, Repr

/-- Index of the first element failing the per-item validation
`!sig.encrypted_signature || !sig.n_param || !sig.player_url`
(JS falsy on a string field means the empty string). -/
def firstInvalidIndex : List SignatureItem → Option Nat
  | [] => none
  | s :: t =>
      if s.encrypted_signature = "" ∨ s.n_param = "" ∨ s.player_url = "" then some 0
      else (firstInvalidIndex t).map (· + 1)

/-- The per-element "simulated decryption" of the source: the result echoes
the inputs and prefixes them with the literal `decrypted_`. -/
def simulateDecrypt (s : SignatureItem) : BatchItemResult :=
  ⟨s.encrypted_signature, s.n_param, s.player_url,
   "decrypted_" ++ s.encrypted_signature, "decrypted_" ++ s.n_param, true⟩

/-- Embedding of `handleBatchDecrypt` (src/handlers/batchDecrypt.ts, lines
12–116).  `none` models a missing or non-array `signatures` field (the
source checks `!signatures || !Array.isArray(signatures)`).  The per-item
`try/catch` in the source cannot throw (its body is string templating), so
every produced result has `success: true`; `successful` is computed, as in
the source, by filtering the results on their `success` flag. -/
def handleBatchDecrypt : Option (List SignatureItem) →
    Except ApiFailure (List BatchItemResult × BatchSummary)
  | none => .error .missingSignatures
  | some sigs =>
      match firstInvalidIndex sigs with
      | some i => .error (.invalidSignatureItem i)
      | none =>
          let results := sigs.map simulateDecrypt
          let successCount := (results.filter (·.success)).length
          .ok (results, ⟨sigs.length, successCount, sigs.length - successCount⟩)

/-! ## Claim C7: the `decrypt_signature` handler  (src/handlers/decryptSignature.ts)

Solvers are runtime-generated callables that may throw; a throwing call is
modelled as `Except.error`.  The embedding covers the part of
`handleDecryptSignature` after a solvers pair has been obtained (lines
62–109): each field is decrypted only when its input token is truthy and
its solver is present, a throw is swallowed leaving the field empty, and
the handler always answers `success: true` with status 200.
-/

/-- A solver callable: evaluation either returns a string or throws. -/
def SolverFn := String → Except String String

/-- The `Solvers` pair of src/types.ts: each slot is a callable or `null`. -/
structure Solvers where
  sig : Option SolverFn
  n : Option SolverFn

/-- Response of a successful `decrypt_signature` request. -/
structure DecryptResponse where
  decrypted_signature : String
  decrypted_n_sig : String
  success : Bool
  status : Nat
deriving DecidableEq, Repr

/-- One field of the decrypt handler: `let out = ''; if (tok && solver) {
try { out = solver(tok) } catch { /" logged "/ } }`. -/
def decryptField (tok : String) (solver : Option SolverFn) : String :=
  if tok ≠ "" then
    match solver with
    | some f => match f tok with
                | .ok d => d
                | .error _ => ""
    | none => ""
  else ""

/-- Embedding of `handleDecryptSignature` lines 62–109: both fields are
computed independently and the response is always `success: true`, 200. -/
def handleDecryptSignature (encrypted_signature n_param : String) (sv : Solvers) :
    DecryptResponse :=
  ⟨decryptField encrypted_signature sv.sig, decryptField n_param sv.n, true, 200⟩

/-! ## Claim C6: the `resolve_url` handler  (src/handlers/resolveUrl.ts)

The stream URL's query string is modelled as an association list of
(key, value) pairs; the handler body (lines 63–117) rewrites it with
`URLSearchParams.set` / `URLSearchParams.delete`.
-/

/-- The query-parameter list of a parsed URL. -/
def Params := List (String × String)
deriving DecidableEq, Repr

/-- `URLSearchParams.set(k, v)`: overwrite the first binding of `k` and
drop any later bindings of `k`; append the pair when `k` is absent. -/
def setParam : Params → String → String → Params
  | [], k, v => [(k, v)]
  | p :: t, k, v => if p.1 = k then (k, v) :: eraseKey t k else p :: setParam t k v

/-- `URLSearchParams.delete(k)`: remove every binding of `k`. -/
def deleteParam (ps : Params) (k : String) : Params := eraseKey ps k

/-- `URLSearchParams.get(k)`: first value of `k`, or `null`. -/
def getParam (ps : Params) (k : String) : Option String := findVal ps k

/-- All bindings of one key, used to state that the handler leaves other
query parameters untouched. -/
def keyBindings (ps : Params) (k : String) : Params :=
  ps.filter (fun p => p.1 == k)

/-- The effective signature key `signature_key || 'sig'` (line 90). -/
def effectiveSigKey (signature_key : String) : String :=
  if signature_key = "" then "sig" else signature_key

/-- The effective n-parameter: the truthy body `n_param`, else the URL's
current `n` (lines 102–105, `nParamFromRequest || null` then
`url.searchParams.get("n")`). -/
def effectiveNParam (nParamFromRequest : String) (ps : Params) : String :=
  if nParamFromRequest = "" then (getParam ps "n").getD "" else nParamFromRequest

/-- Outcome of the guarded `try { sig(...) }` block (lines 88–98): on a
normal return the effective key is set and `s` deleted; on a throw the
query is untouched. -/
def sigApplyResult : Except String String → String → Params → Except ApiFailure Params
  | .ok d, sigKey, ps => .ok (deleteParam (setParam ps sigKey d) "s")
  | .error _, _, ps => .ok ps

/-- Lines 67–99 given the `sig` slot: a missing solver is a hard
`NO_SIGNATURE_SOLVER` failure, otherwise the solver is evaluated. -/
def sigApply : Option SolverFn → String → String → Params → Except ApiFailure Params
  | none, _, _, _ => .error .noSignatureSolver
  | some f, enc, sigKey, ps => sigApplyResult (f enc) sigKey ps

/-- The signature-rewrite step of `handleResolveUrl` (lines 66–99),
entered only when `encrypted_signature` is truthy. -/
def resolveSigStep (enc sigKeyRaw : String) (sv : Solvers) (ps : Params) :
    Except ApiFailure Params :=
  if enc = "" then .ok ps
  else sigApply sv.sig enc (effectiveSigKey sigKeyRaw) ps

/-- Outcome of the guarded `try { n(...) }` block (lines 108–116). -/
def nApplyResult : Except String String → Params → Params
  | .ok d, ps => setParam ps "n" d
  | .error _, ps => ps

/-- Lines 107–117 given the `n` slot: the solver runs only when present
and the effective n-parameter is truthy. -/
def nApply : Option SolverFn → String → Params → Params
  | none, _, ps => ps
  | some g, nParam, ps => if nParam = "" then ps else nApplyResult (g nParam) ps

/-- The n-rewrite step of `handleResolveUrl` (lines 101–117). -/
def resolveNStep (nParamFromRequest : String) (sv : Solvers) (ps : Params) : Params :=
  nApply sv.n (effectiveNParam nParamFromRequest ps) ps

/-- Embedding of `handleResolveUrl` lines 63–117: the signature step runs
first on the parsed URL, then the n step on its output. -/
def handleResolveUrl (enc sigKeyRaw nPar : String) (sv : Solvers) (ps : Params) :
    Except ApiFailure Params :=
  (resolveSigStep enc sigKeyRaw sv ps).map (resolveNStep nPar sv)

/-- Observation on a resolve result: the value of query key `k` in the
resolved URL (`none` when the handler failed). -/
def resultGet (r : Except ApiFailure Params) (k : String) : Option (Option String) :=
  r.toOption.map (fun ps => getParam ps k)

/-! ## Claim C5: the `get_sts` handler  (src/handlers/validateSignature.ts, `handleGetSts`)

The handler scans the player script with an ordered list of regular
expressions, first matching pattern wins.  The seven patterns only use
literal fragments, `\s*` and a captured `\d+`, so each is embedded as a
matcher `List Char → Option (List Char)` returning the captured digits of
a match anchored at the current position; `String.prototype.match` (no
global flag) returns the leftmost match, embedded by `scanFirst`.
-/

/-- The whitespace characters of the regex class `\s` occurring in player
scripts (space, tab, LF, CR, VT, FF). -/
def isJsSpace (c : Char) : Bool :=
  c == ' ' || c == '\t' || c == '\n' || c == '\r' || c == '\x0b' || c == '\x0c'

/-- Greedily skip `\s*`. -/
def skipJsSpace : List Char → List Char
  | c :: t => if isJsSpace c then skipJsSpace t else c :: t
  | [] => []

/-- Greedily take the maximal leading digit run (`\d+` capture). -/
def takeDigits : List Char → List Char
  | c :: t => if c.isDigit then c :: takeDigits t else []
  | [] => []

/-- `\s*(\d+)` anchored at the current position (fails without a digit). -/
def wsDigits (l : List Char) : Option (List Char) :=
  match takeDigits (skipJsSpace l) with
  | [] => none
  | d :: ds => some (d :: ds)

/-- Strip a literal fragment from the head of the input. -/
def stripLit : List Char → List Char → Option (List Char)
  | [], l => some l
  | _ :: _, [] => none
  | c :: cs, x :: xs => if c = x then stripLit cs xs else none

/-- A literal fragment followed by `\s*(\d+)`. -/
def litThenWsDigits (lit : List Char) (l : List Char) : Option (List Char) :=
  (stripLit lit l).bind wsDigits

/-- `\s*=\s*(\d+)` anchored at the current position. -/
def eqWsDigits (l : List Char) : Option (List Char) :=
  match skipJsSpace l with
  | '=' :: rest => wsDigits rest
  | _ => none

/-- The single-quote character (written by code to keep literals plain). -/
def sq : Char := Char.ofNat 39

/-- `(?:signatureTimestamp|sts):\s*(\d+)` — alternatives tried in order,
as the regex engine does. -/
def pat1At (l : List Char) : Option (List Char) :=
  match litThenWsDigits "signatureTimestamp:".toList l with
  | some ds => some ds
  | none => litThenWsDigits "sts:".toList l

/-- `"signatureTimestamp":\s*(\d+)` -/
def pat2At (l : List Char) : Option (List Char) :=
  litThenWsDigits ("\"signatureTimestamp\":".toList) l

/-- The single-quote variant of `pat2At`. -/
def pat3At (l : List Char) : Option (List Char) :=
  litThenWsDigits ([sq] ++ "signatureTimestamp".toList ++ [sq, ':']) l

/-- `signatureTimestamp\s*=\s*(\d+)` -/
def pat4At (l : List Char) : Option (List Char) :=
  (stripLit "signatureTimestamp".toList l).bind eqWsDigits

/-- `sts\s*=\s*(\d+)` -/
def pat5At (l : List Char) : Option (List Char) :=
  (stripLit "sts".toList l).bind eqWsDigits

/-- `"sts":\s*(\d+)` -/
def pat6At (l : List Char) : Option (List Char) :=
  litThenWsDigits ("\"sts\":".toList) l

/-- The single-quote variant of `pat6At`. -/
def pat7At (l : List Char) : Option (List Char) :=
  litThenWsDigits ([sq] ++ "sts".toList ++ [sq, ':']) l

/-- Leftmost match: try the anchored matcher at each position, left to
right (`String.prototype.match` without the global flag). -/
def scanFirst (m : List Char → Option (List Char)) : List Char → Option (List Char)
  | [] => m []
  | l@(_ :: t) =>
      match m l with
      | some ds => some ds
      | none => scanFirst m t

/-- The ordered pattern list of `handleGetSts` (lines 234–242). -/
def stsPatternList : List (List Char → Option (List Char)) :=
  [pat1At, pat2At, pat3At, pat4At, pat5At, pat6At, pat7At]

/-- The `for (const pattern of patterns)` loop (lines 244–249): the first
pattern that matches anywhere wins. -/
def tryPatterns : List (List Char → Option (List Char)) → List Char → Option (List Char)
  | [], _ => none
  | p :: ps, content =>
      match scanFirst p content with
      | some ds => some ds
      | none => tryPatterns ps content

/-- The full STS extraction of lines 232–252. -/
def stsExtract (content : List Char) : Option (List Char) :=
  tryPatterns stsPatternList content

/-- `parseInt(s, 10)` on a captured all-digit string (exact for the range
compared against; a value above the 10^10 bound stays above it under
float rounding, so the comparison's outcome is unchanged). -/
def digitsToNat (ds : List Char) : Nat :=
  ds.foldl (fun a c => a * 10 + (c.toNat - 48)) 0

/-- Outcome of a `get_sts` request, with its HTTP status. -/
inductive StsResult where
  | hit (sts : String)     -- 200, answered from the sts cache
  | invalidContent         -- 500 `Invalid or too short player content`
  | notFound               -- 404 `Signature timestamp not found in player script`
  | invalidValue           -- 400 `Invalid signature timestamp value`
  | ok (sts : String)      -- 200, freshly extracted
deriving DecidableEq, Repr

/-- HTTP status of each `get_sts` outcome (lines 190, 224, 262, 279, 310). -/
def stsHttpStatus : StsResult → Nat
  | .hit _ => 200
  | .invalidContent => 500
  | .notFound => 404
  | .invalidValue => 400
  | .ok _ => 200

/-- The range check and cache write on a captured digit string (lines
269–297): digit captures are never negative or NaN, so only the upper
bound can reject. -/
def stsOfDigits (ds : List Char) : StsResult × Option String :=
  if digitsToNat ds > 9999999999 then (.invalidValue, none)
  else (.ok (String.mk ds), some (String.mk ds))

/-- The cache-miss path of `handleGetSts` (lines 201–317): length check,
ordered pattern scan, range check, cache write.  The second component is
the value written to the sts cache (`stsCache.set`, line 287), if any. -/
def handleGetStsCold (content : String) : StsResult × Option String :=
  if content.length < 1000 then (.invalidContent, none)
  else
    match stsExtract content.toList with
    | none => (.notFound, none)
    | some ds => stsOfDigits ds

/-- Embedding of `handleGetSts` (lines 140–317) given the result of the
`stsCache.get` lookup and the on-disk player script content.  A cached
truthy value short-circuits (lines 169–199); the JS falsy check means a
cached empty string falls through to the cold path. -/
def handleGetSts (cached : Option String) (content : String) : StsResult × Option String :=
  match cached with
  | some v => if v = "" then handleGetStsCold content else (.hit v, none)
  | none => handleGetStsCold content

/-! ## Claim C8: player-store startup cleanup  (src/playerCache.ts, `initializeCache`)

`initializeCache` walks the store directory and deletes files it considers
stale.  The source computes `stat.atime?.getTime() ?? stat.mtime?.getTime()
?? stat.birthtime?.getTime()` — the FIRST available timestamp, not the
newest — and the truthiness guard `lastAccessed && ...` keeps a file whose
chosen timestamp is exactly the epoch (0).
-/

/-- `Deno.stat` timestamps of one directory entry, in milliseconds since
the epoch (`none` models a `null` timestamp). -/
structure FileStat where
  isFile : Bool
  atime : Option Nat
  mtime : Option Nat
  birthtime : Option Nat
deriving DecidableEq, Repr

/-- `14 * 24 * 60 * 60 * 1000` (line 47). -/
def fourteenDays : Nat := 14 * 24 * 60 * 60 * 1000

/-- Line 55: `stat.atime?.getTime() ?? stat.mtime?.getTime() ??
stat.birthtime?.getTime()` — first available, not newest. -/
def lastAccessedOf (st : FileStat) : Option Nat :=
  st.atime <|> st.mtime <|> st.birthtime

/-- Line 57: `lastAccessed && (Date.now() - lastAccessed > fourteenDays)`.
A `lastAccessed` of `0` is falsy, so such a file is kept. -/
def isStale (now : Nat) (st : FileStat) : Bool :=
  match lastAccessedOf st with
  | some t => t != 0 && decide (now - t > fourteenDays)
  | none => false

/-- Embedding of `initializeCache` (src/playerCache.ts lines 43–68): walk
the directory entries, delete every stale file, count the surviving files
and publish that count as the player cache-size gauge.  Returns the
deleted names and the published gauge value. -/
def initializeCache (now : Nat) : List (String × FileStat) → List String × Nat
  | [] => ([], 0)
  | (name, st) :: rest =>
      let r := initializeCache now rest
      if st.isFile then
        if isStale now st then (name :: r.1, r.2) else (r.1, r.2 + 1)
      else r

/-- Modelled from the spec: the claim's "newest of atime, mtime and
birthtime" (spec §4.1 Initialization), stated only to compare with the
source's first-available fallback. -/
def spec_newestTimestamp (st : FileStat) : Option Nat :=
  ([st.atime, st.mtime, st.birthtime].reduceOption).max?

/-! ## Claim C9: the instrumented tiered cache  (src/instrumentedCache.ts)

`InstrumentedLRU<T>` extends the `lru@1.0.2` LRU map and keeps a parallel
`entries` map of `{value, timestamp}` for TTL checks.  The LRU superclass
is modelled classically: a recency-ordered association list (most recent
first) bounded by the capacity, evicting the least recently used entry on
overflow.  Prometheus emission is dropped; the class's own hit, miss, op
and error counters are kept.  Note the two stores can drift: an LRU
capacity eviction removes a key from the superclass but not from
`entries`.
-/

/-- State of the `lru@1.0.2` superclass: most-recent-first entries. -/
structure LruState (V : Type) where
  items : List (String × V)

/-- `LRU.get` on an already-looked-up value: refresh recency on a hit. -/
def lruGetFound (l : LruState V) (k : String) : Option V → Option V × LruState V
  | some v => (some v, ⟨(k, v) :: eraseKey l.items k⟩)
  | none => (none, l)

/-- `LRU.get`: return the value and refresh its recency. -/
def lruGetStep (l : LruState V) (k : String) : Option V × LruState V :=
  lruGetFound l k (findVal l.items k)

/-- `LRU.set`: insert at the front; over capacity, evict the least
recently used (last) entry. -/
def lruSetStep (cap : Nat) (l : LruState V) (k : String) (v : V) : LruState V :=
  let grown := (k, v) :: eraseKey l.items k
  ⟨if grown.length > cap then grown.dropLast else grown⟩

/-- `LRU.remove`: returns the removed value's presence. -/
def lruRemove (l : LruState V) (k : String) : Bool × LruState V :=
  ((findVal l.items k).isSome, ⟨eraseKey l.items k⟩)

/-- The `InstrumentedLRU<T>` instance state: the superclass LRU, the
parallel `entries` timestamp map, and the counters. -/
structure InstrumentedLRU (V : Type) where
  maxSize : Nat
  ttl : Nat
  lru : LruState V
  entries : List (String × V × Nat)
  hits : Nat
  misses : Nat
  operations : Nat
  errors : Nat

/-- A freshly constructed cache (lines 23–32). -/
def InstrumentedLRU.mkEmpty (V : Type) (maxSize ttl : Nat) : InstrumentedLRU V :=
  ⟨maxSize, ttl, ⟨[]⟩, [], 0, 0, 0, 0⟩

/-- `delete(key)` (lines 122–131): remove the key from `entries` and from
the LRU; `recordOperation` bumps the op counter. -/
def InstrumentedLRU.delete (c : InstrumentedLRU V) (k : String) :
    Bool × InstrumentedLRU V :=
  let r := lruRemove c.lru k
  (r.1, { c with
          lru := r.2
          entries := eraseKey c.entries k
          operations := c.operations + 1 })

/-- The `super.get` consultation inside `get` (line 95). -/
def InstrumentedLRU.superGet (c : InstrumentedLRU V) (k : String) :
    Option V × InstrumentedLRU V :=
  let p := lruGetStep c.lru k
  (p.1, { c with lru := p.2 })

/-- The hit/miss counting after the timed closure of `get` (lines 98–106). -/
def InstrumentedLRU.countGet (c : InstrumentedLRU V) (r : Option V) : InstrumentedLRU V :=
  match r with
  | some _ => { c with hits := c.hits + 1, operations := c.operations + 1 }
  | none => { c with misses := c.misses + 1, operations := c.operations + 1 }

/-- The TTL branch of `get` on an already-looked-up `entries` record. -/
def InstrumentedLRU.getChecked (c : InstrumentedLRU V) (now : Nat) (k : String) :
    Option (V × Nat) → Option V × InstrumentedLRU V
  | some (_, ts) =>
      if now - ts > c.ttl then (none, (c.delete k).2)
      else c.superGet k
  | none => c.superGet k

/-- The timed closure of `get` (lines 84–96): an expired `entries` entry is
deleted and the result is `undefined`; otherwise `super.get` answers. -/
def InstrumentedLRU.getInner (c : InstrumentedLRU V) (now : Nat) (k : String) :
    Option V × InstrumentedLRU V :=
  c.getChecked now k (findVal c.entries k)

/-- `get(key)` (lines 83–108). -/
def InstrumentedLRU.get (c : InstrumentedLRU V) (now : Nat) (k : String) :
    Option V × InstrumentedLRU V :=
  ((c.getInner now k).1,
   InstrumentedLRU.countGet (c.getInner now k).2 (c.getInner now k).1)

/-- `set(key, value)` (lines 110–120): refresh the `entries` timestamp and
insert into the LRU. -/
def InstrumentedLRU.set (c : InstrumentedLRU V) (now : Nat) (k : String) (v : V) :
    InstrumentedLRU V :=
  { c with
    entries := (k, (v, now)) :: eraseKey c.entries k
    lru := lruSetStep c.maxSize c.lru k v
    operations := c.operations + 1 }

/-- `clear()` (lines 133–145): wipe both stores and reset the counters
(the final `recordOperation` then counts the clear itself). -/
def InstrumentedLRU.clear (c : InstrumentedLRU V) : InstrumentedLRU V :=
  { c with
    lru := ⟨[]⟩
    entries := []
    hits := 0
    misses := 0
    operations := 1
    errors := 0 }

/-- The TTL branch of `has` on an already-looked-up `entries` record. -/
def InstrumentedLRU.hasChecked (c : InstrumentedLRU V) (now : Nat) (k : String) :
    Option (V × Nat) → Bool × InstrumentedLRU V
  | some (_, ts) =>
      if now - ts > c.ttl then
        (false, { (c.delete k).2 with operations := ((c.delete k).2).operations + 1 })
      else ((findVal c.lru.items k).isSome, { c with operations := c.operations + 1 })
  | none => ((findVal c.lru.items k).isSome, { c with operations := c.operations + 1 })

/-- `has(key)` (lines 147–164): an expired entry is deleted (answering
false); otherwise `super.has` answers without touching recency. -/
def InstrumentedLRU.has (c : InstrumentedLRU V) (now : Nat) (k : String) :
    Bool × InstrumentedLRU V :=
  c.hasChecked now k (findVal c.entries k)

/-- The branch of `touch` on an already-looked-up `entries` record. -/
def InstrumentedLRU.touchChecked (c : InstrumentedLRU V) (now : Nat) (k : String) :
    Option (V × Nat) → Bool × InstrumentedLRU V
  | some (v, _) =>
      (true, { c with entries := (k, (v, now)) :: eraseKey c.entries k })
  | none => (false, c)

/-- `touch(key)` (lines 200–207): refresh the timestamp only. -/
def InstrumentedLRU.touch (c : InstrumentedLRU V) (now : Nat) (k : String) :
    Bool × InstrumentedLRU V :=
  c.touchChecked now k (findVal c.entries k)

/-- The periodic `cleanup()` sweep (lines 40–63): collect the expired keys
of `entries`, then `delete` each. -/
def InstrumentedLRU.cleanup (c : InstrumentedLRU V) (now : Nat) : InstrumentedLRU V :=
  ((c.entries.filter (fun e => decide (now - e.2.2 > c.ttl))).map (·.1)).foldl
    (fun acc k => (acc.delete k).2) c

/-- The cache's public operations, for stating reachability. -/
inductive CacheOp (V : Type) where
  | get (now : Nat) (k : String)
  | set (now : Nat) (k : String) (v : V)
  | del (k : String)
  | clear
  | has (now : Nat) (k : String)
  | touch (now : Nat) (k : String)
  | cleanup (now : Nat)

/-- One public operation applied to the cache state. -/
def applyOp (c : InstrumentedLRU V) : CacheOp V → InstrumentedLRU V
  | .get now k => (c.get now k).2
  | .set now k v => c.set now k v
  | .del k => (c.delete k).2
  | .clear => c.clear
  | .has now k => (c.has now k).2
  | .touch now k => (c.touch now k).2
  | .cleanup now => c.cleanup now

/-- Cache states reachable from a fresh instance by public operations. -/
inductive Reachable : InstrumentedLRU V → Prop where
  | init (maxSize ttl : Nat) : Reachable (InstrumentedLRU.mkEmpty V maxSize ttl)
  | step (c : InstrumentedLRU V) (op : CacheOp V) :
      Reachable c → Reachable (applyOp c op)

/-- The store-coupling invariant: every key held by the LRU has a matching
`entries` record with the same value (and some insert time). -/
def CacheInv (c : InstrumentedLRU V) : Prop :=
  ∀ k v, findVal c.lru.items k = some v → ∃ ts, findVal c.entries k = some (v, ts)

/-! ## Claims C4 and C10: the auth gate  (main server file `baseHandler`, src/middleware.ts `withAuth`)

The main server file guards the six core endpoints itself (lines 178–211),
accepting exactly `Bearer <t>` or the raw token, with
`t = API_TOKEN || "YO_TOKEN"` and enforcement skipped only for the empty
token or the placeholder `YOUR_API_TOKEN`.  The composed middleware then
also applies `withAuth`, which reads the separate `RY4N` variable and —
because it unconditionally re-checks `authHeader.substring(7)` — lets only
`Bearer <t>` through when that variable is set.  Public paths are served
before the auth block.  (The gate is method-independent in the source;
the method is therefore not modelled.)
-/

/-- Character-level prefix test (`String.prototype.startsWith`; the
core-library `String.startsWith` is avoided because its byte-position
implementation does not reduce in the kernel). -/
def listIsPrefixOf : List Char → List Char → Bool
  | [], _ => true
  | _ :: _, [] => false
  | c :: cs, x :: xs => c == x && listIsPrefixOf cs xs

/-- `s.startsWith p` at the character level. -/
def strStartsWith (s p : String) : Bool :=
  listIsPrefixOf p.toList s.toList

/-- `s.substring(n)` at the character level. -/
def strDrop (s : String) (n : Nat) : String :=
  String.mk (s.toList.drop n)

/-- `Deno.env.get("API_TOKEN") || "YO_TOKEN"` (line 26): an unset or empty
variable falls back to the built-in token. -/
def configApiToken : Option String → String
  | some s => if s = "" then "YO_TOKEN" else s
  | none => "YO_TOKEN"

/-- Line 184: enforcement is skipped when the configured token is empty or
the placeholder. -/
def authDisabled (t : String) : Bool :=
  t == "" || t == "YOUR_API_TOKEN"

/-- Line 191: `authHeader === \`Bearer ${t}\` || authHeader === t`. -/
def baseAuthAccepts (t : String) (authHeader : Option String) : Bool :=
  authHeader == some ("Bearer " ++ t) || authHeader == some t

/-- The `startsWith` chain over the six core endpoints (lines 178–180). -/
def isCoreApiPath (p : String) : Bool :=
  strStartsWith p "/decrypt_signature" || strStartsWith p "/get_sts" ||
  strStartsWith p "/resolve_url" || strStartsWith p "/batch_decrypt" ||
  strStartsWith p "/validate_signature" || strStartsWith p "/clear_cache"

/-- The paths `baseHandler` serves before reaching the auth block
(lines 131–176). -/
def isPublicPath (p : String) : Bool :=
  p == "/" || p == "/metrics" || p == "/health" || p == "/status" ||
  p == "/info" || p == "/swagger.json"

/-- How far a request gets through `baseHandler`'s routing prefix. -/
inductive GateResult where
  | handledPublic   -- answered before the auth block
  | unauthorized    -- 401 from the auth block (lines 193–209)
  | passed          -- reaches the endpoint dispatch
deriving DecidableEq, Repr

/-- The routing-and-auth prefix of `baseHandler` (lines 131–211). -/
def baseHandlerGate (apiTokenEnv : Option String) (pathname : String)
    (authHeader : Option String) : GateResult :=
  if isPublicPath pathname then .handledPublic
  else if isCoreApiPath pathname then
    if authDisabled (configApiToken apiTokenEnv) then .passed
    else if baseAuthAccepts (configApiToken apiTokenEnv) authHeader then .passed
    else .unauthorized
  else .passed

/-- The status of the gate's rejection response (line 203). -/
def gateHttpStatus : GateResult → Option Nat
  | .unauthorized => some 401
  | _ => none

/-- Value of one base64-alphabet character, `none` when invalid. -/
def base64Val (c : Char) : Option Nat :=
  if 'A' ≤ c ∧ c ≤ 'Z' then some (c.toNat - 65)
  else if 'a' ≤ c ∧ c ≤ 'z' then some (c.toNat - 97 + 26)
  else if '0' ≤ c ∧ c ≤ '9' then some (c.toNat - 48 + 52)
  else if c = '+' then some 62
  else if c = '/' then some 63
  else none

/-- RFC 4648 base64 decoding over latin1 bytes, modelling `atob`
(returns `none` where `atob` would throw). -/
def base64DecodeGo : List Char → Option (List Nat)
  | [] => some []
  | [a, b, '=', '='] => do
      let va ← base64Val a
      let vb ← base64Val b
      pure [va * 4 + vb / 16]
  | [a, b, c, '='] => do
      let va ← base64Val a
      let vb ← base64Val b
      let vc ← base64Val c
      pure [va * 4 + vb / 16, (vb % 16) * 16 + vc / 4]
  | a :: b :: c :: d :: rest => do
      let va ← base64Val a
      let vb ← base64Val b
      let vc ← base64Val c
      let vd ← base64Val d
      let tail ← base64DecodeGo rest
      pure ([va * 4 + vb / 16, (vb % 16) * 16 + vc / 4, (vc % 4) * 64 + vd] ++ tail)
  | _ => none

/-- `atob` on a string. -/
def base64Decode (s : String) : Option (List Nat) :=
  base64DecodeGo s.toList

/-- The base64 alphabet. -/
def base64Chars : List Char :=
  "ABCDEFGHIJKLMNOPQRSTUVWXYZabcdefghijklmnopqrstuvwxyz0123456789+/".toList

/-- Modelled from the spec: RFC 4648 base64 encoding, used to state the
claim's `Basic base64(user:t)` header shape. -/
def base64Encode : List Nat → String
  | [] => ""
  | [x] => String.mk [base64Chars.getD (x / 4) 'A',
      base64Chars.getD ((x % 4) * 16) 'A', '=', '=']
  | [x, y] => String.mk [base64Chars.getD (x / 4) 'A',
      base64Chars.getD ((x % 4) * 16 + y / 16) 'A',
      base64Chars.getD ((y % 16) * 4) 'A', '=']
  | x :: y :: z :: rest =>
      String.mk [base64Chars.getD (x / 4) 'A',
        base64Chars.getD ((x % 4) * 16 + y / 16) 'A',
        base64Chars.getD ((y % 16) * 4 + z / 64) 'A',
        base64Chars.getD (z % 64) 'A'] ++ base64Encode rest

/-- Latin1/ASCII bytes of a string. -/
def strToBytes (s : String) : List Nat := s.toList.map (·.toNat)

/-- String of latin1 bytes. -/
def bytesToStr (l : List Nat) : String := String.mk (l.map Char.ofNat)

/-- The password taken from `decoded.split(':')` destructuring (middleware
line 422): the element at index 1, or no password when there is no colon. -/
def basicPassword (decoded : String) : Option String :=
  match decoded.splitOn ":" with
  | _ :: pw :: _ => some pw
  | _ => none

/-- `withAuth` (src/middleware.ts lines 392–484) given the `RY4N` token:
`true` when the middleware answers 401.  After the Bearer/Basic/raw
acceptance checks, the source unconditionally re-checks
`authHeader.substring(7) === apiToken` (lines 455–456), so Basic and
raw-token credentials that passed the first check are still rejected. -/
def withAuthRejects (ry4nEnv : Option String) (pathname : String)
    (authHeader : Option String) : Bool :=
  if pathname == "/health" || pathname == "/metrics" || pathname == "/status" ||
     pathname == "/api/docs" then false
  else
    match ry4nEnv with
    | none => false
    | some t =>
        if t = "" then false
        else
          match authHeader with
          | none => true
          | some h =>
              let bearerOk := strStartsWith h "Bearer " && (strDrop h 7 == t)
              let basicOk := strStartsWith h "Basic " &&
                (match base64Decode (strDrop h 6) with
                 | some bytes =>
                     match basicPassword (bytesToStr bytes) with
                     | some pw => pw == t
                     | none => false
                 | none => false)
              let rawOk := h == t
              if !(bearerOk || basicOk || rawOk) then true
              else if strDrop h 7 != t then true
              else false

/-- A core request is past the auth gate when `baseHandler` lets it
through to the dispatch and the composed middleware's `withAuth` does not
reject it. -/
def coreAuthAccepts (apiTokenEnv ry4nEnv : Option String) (pathname : String)
    (authHeader : Option String) : Bool :=
  baseHandlerGate apiTokenEnv pathname authHeader == .passed &&
  !(withAuthRejects ry4nEnv pathname authHeader)

/-! ## Claim C3: concurrency of `getSolvers`  (src/solver.ts, src/playerCache.ts)

`getSolvers` performs `await getPlayerFilePath` (which stats the on-disk
store and, on a miss, fetches the script and writes it), then
synchronously consults the solver and preprocessed caches, then
`await Deno.readTextFile`, then `await execInPool` (the preprocess), and
finally — synchronously after the await resolves — fills the
preprocessed cache, extracts with `getFromPrepared` and fills the solver
cache.  There is no per-fingerprint promise table or other single-flight
device anywhere in the source.  Two concurrent calls for the same player
URL are modelled as a two-thread interleaved machine: each `await` is a
yield point, code between awaits runs atomically, and a schedule (a list
of booleans choosing the thread) drives execution.
-/

/-- Program counter of one `getSolvers` call: the label names the next
atomic section. -/
inductive ThreadPc where
  | atStat       -- `Deno.stat` inside getPlayerFilePath
  | atFetch      -- `fetch(playerUrl)` on a disk miss (counts a fetch)
  | atText       -- `response.text()`
  | atWrite      -- `Deno.writeTextFile`, then return into getSolvers
  | atCacheCheck -- solverCache.get / preprocessedCache.get (synchronous)
  | atRead       -- `Deno.readTextFile`
  | atExecStart  -- `execInPool` starts the preprocess (counts it)
  | atExecJoin   -- task resolves: caches filled, extraction, return
  | done (result : Option String)
deriving DecidableEq, Repr

/-- The shared mutable state: disk store presence, the two caches, and the
upstream-fetch / preprocess invocation counters.  A solvers pair is
represented by the string the extractor returns for it. -/
structure SharedSt where
  disk : Bool
  solverC : Option String
  preC : Option String
  fetchCount : Nat
  preprocessCount : Nat
deriving DecidableEq, Repr

/-- The raw player script (a constant: the same bytes are fetched and then
read back from the store). -/
def rawScript : String := "raw"

/-- One atomic section.  `pf` is the worker-pool `preprocess`, `ef` the
extractor `getFromPrepared` (which may find no solvers). -/
def sectionStep (pf : String → String) (ef : String → Option String)
    (sh : SharedSt) : ThreadPc → SharedSt × ThreadPc
  | .atStat => if sh.disk then (sh, .atCacheCheck) else (sh, .atFetch)
  | .atFetch => ({ sh with fetchCount := sh.fetchCount + 1 }, .atText)
  | .atText => (sh, .atWrite)
  | .atWrite => ({ sh with disk := true }, .atCacheCheck)
  | .atCacheCheck =>
      match sh.solverC with
      | some sv => (sh, .done (some sv))
      | none =>
          match sh.preC with
          | some pp =>
              match ef pp with
              | some sv => ({ sh with solverC := some sv }, .done (some sv))
              | none => (sh, .done none)
          | none => (sh, .atRead)
  | .atRead => (sh, .atExecStart)
  | .atExecStart => ({ sh with preprocessCount := sh.preprocessCount + 1 }, .atExecJoin)
  | .atExecJoin =>
      match ef (pf rawScript) with
      | some sv =>
          ({ sh with preC := some (pf rawScript), solverC := some sv }, .done (some sv))
      | none => ({ sh with preC := some (pf rawScript) }, .done none)
  | .done r => (sh, .done r)

/-- Two concurrent `getSolvers` calls for the same fingerprint. -/
structure C3State where
  sh : SharedSt
  t0 : ThreadPc
  t1 : ThreadPc
deriving DecidableEq, Repr

/-- Run one atomic section of the chosen thread (`false` = first caller). -/
def c3step (pf : String → String) (ef : String → Option String)
    (st : C3State) (which : Bool) : C3State :=
  if which then
    let r := sectionStep pf ef st.sh st.t1
    { st with sh := r.1, t1 := r.2 }
  else
    let r := sectionStep pf ef st.sh st.t0
    { st with sh := r.1, t0 := r.2 }

/-- Run a whole schedule. -/
def c3run (pf : String → String) (ef : String → Option String)
    (sched : List Bool) (st : C3State) : C3State :=
  sched.foldl (c3step pf ef) st

/-- Cold start: empty store, empty caches, both callers about to stat. -/
def c3init : C3State := ⟨⟨false, none, none, 0, 0⟩, .atStat, .atStat⟩

/-- The serialized schedule: the first caller runs to completion (8
sections), then the second (2 sections: stat hits the disk, the cache
check hits the solver cache). -/
def serialSched : List Bool := List.replicate 8 false ++ List.replicate 2 true

/-- A concurrent interleaving: the first caller runs up to the point where
its preprocess task has started, then the second caller — finding the
disk present but both caches still empty — reaches the same point. -/
def concSchedPre : List Bool := List.replicate 7 false ++ List.replicate 4 true

/-- The same interleaving driven to completion. -/
def concSched : List Bool := concSchedPre ++ [false, true]

end YtCipher

namespace YtCipher

/-! ## Association-list lemmas -/

theorem findVal_nil (k : String) : findVal ([] : List (String × α)) k = none := rfl

theorem findVal_cons (k : String) (p : String × α) (l : List (String × α)) :
    findVal (p :: l) k = if p.1 = k then some p.2 else findVal l k := by
  unfold findVal
  by_cases h : p.1 = k
  · rw [List.find?_cons_of_pos _ (by simp [h])]; simp [h]
  · rw [List.find?_cons_of_neg _ (by simp [h])]; simp [h]

theorem eraseKey_nil (k : String) : eraseKey ([] : List (String × α)) k = [] := rfl

theorem eraseKey_cons (k : String) (p : String × α) (l : List (String × α)) :
    eraseKey (p :: l) k = if p.1 = k then eraseKey l k else p :: eraseKey l k := by
  unfold eraseKey
  rw [List.filter_cons]
  by_cases h : p.1 = k <;> simp [h]

theorem findVal_eraseKey_self (l : List (String × α)) (k : String) :
    findVal (eraseKey l k) k = none := by
  induction l with
  | nil => rfl
  | cons p t ih =>
      rw [eraseKey_cons]
      by_cases h : p.1 = k
      · simpa [h] using ih
      · rw [if_neg h, findVal_cons, if_neg h]; exact ih

theorem findVal_eraseKey_ne (l : List (String × α)) (k k' : String) (h : k' ≠ k) :
    findVal (eraseKey l k) k' = findVal l k' := by
  induction l with
  | nil => rfl
  | cons p t ih =>
      rw [eraseKey_cons]
      by_cases hp : p.1 = k
      · have hp' : p.1 ≠ k' := by rw [hp]; exact fun hk => h hk.symm
        rw [if_pos hp, findVal_cons, if_neg hp']; exact ih
      · rw [if_neg hp, findVal_cons, findVal_cons]
        by_cases hk' : p.1 = k'
        · simp [hk']
        · rw [if_neg hk', if_neg hk']; exact ih

theorem findVal_dropLast_some (l : List (String × α)) (k : String) (v : α)
    (h : findVal l.dropLast k = some v) : findVal l k = some v := by
  induction l with
  | nil => simpa using h
  | cons p t ih =>
      cases t with
      | nil => simp [findVal_nil] at h
      | cons q u =>
          rw [List.dropLast_cons_of_ne_nil (by simp)] at h
          rw [findVal_cons] at h ⊢
          by_cases hk : p.1 = k
          · simpa [hk] using h
          · simp only [hk, if_false] at h ⊢
            exact ih h

/-- Claim C1 (counterexample).  `POST /clear_cache {cache_type: "all"}`
against caches holding 3 solver entries answers `cleared_caches` with all
four names, yet the solver cache still holds its 3 entries afterwards —
the claim's "immediately afterwards every cleared cache has size 0" is
false: no cache is emptied. -/
theorem clearCache_counterexample :
    (handleClearCache ⟨some "all", none⟩ ⟨2, 3, 4, 5⟩).2.solver = 3 ∧
    (handleClearCache ⟨some "all", none⟩ ⟨2, 3, 4, 5⟩).1 =
      .ok ⟨["player_cache", "solver_cache", "preprocessed_cache", "sts_cache"], 4, true⟩ := by
  constructor <;> rfl

/-- Claim C1 (amended).  For every `clear_cache` request: with
`cache_type = "all"` or `clear_all = true` the response lists all four
cache names; with one of `player`/`solver`/`preprocessed`/`sts` it lists
that cache's name; any other `cache_type` (when `clear_all` is not true)
is a 400 validation error; and in every case the caches themselves are
left untouched — the handler never clears anything (the `clear()` calls
in the source are commented out), so cache sizes are unchanged rather
than zero. -/
theorem clearCache_amended (req : ClearCacheRequest) (st : CacheSizes) :
    (handleClearCache req st).2 = st ∧
    ((req.clear_all = some true ∨ req.cache_type = some "all") →
      (handleClearCache req st).1 =
        .ok ⟨["player_cache", "solver_cache", "preprocessed_cache", "sts_cache"], 4, true⟩) ∧
    (¬(req.clear_all = some true ∨ req.cache_type = some "all") →
      req.cache_type = some "player" →
      (handleClearCache req st).1 = .ok ⟨["player_cache"], 1, false⟩) ∧
    (¬(req.clear_all = some true ∨ req.cache_type = some "all") →
      req.cache_type = some "solver" →
      (handleClearCache req st).1 = .ok ⟨["solver_cache"], 1, false⟩) ∧
    (¬(req.clear_all = some true ∨ req.cache_type = some "all") →
      req.cache_type = some "preprocessed" →
      (handleClearCache req st).1 = .ok ⟨["preprocessed_cache"], 1, false⟩) ∧
    (¬(req.clear_all = some true ∨ req.cache_type = some "all") →
      req.cache_type = some "sts" →
      (handleClearCache req st).1 = .ok ⟨["sts_cache"], 1, false⟩) ∧
    (¬(req.clear_all = some true ∨ req.cache_type = some "all") →
      (∀ t, req.cache_type = some t →
        t ∉ (["player", "solver", "preprocessed", "sts"] : List String)) →
      (handleClearCache req st).1 = .error .invalidCacheType) := by
  refine ⟨?_, ?_, ?_, ?_, ?_, ?_, ?_⟩
  · unfold handleClearCache
    by_cases h : req.clear_all = some true ∨ req.cache_type = some "all"
    · simp [h]
    · simp only [h, if_neg (by exact h)]
      rcases req.cache_type with _ | t <;> simp_all [handleClearCache]
      split <;> rfl
  · intro h; unfold handleClearCache; simp [h]
  · intro h ht
    have h1 : ¬ req.clear_all = some true := fun hh => h (Or.inl hh)
    unfold handleClearCache; simp [h1, ht]
  · intro h ht
    have h1 : ¬ req.clear_all = some true := fun hh => h (Or.inl hh)
    unfold handleClearCache; simp [h1, ht]
  · intro h ht
    have h1 : ¬ req.clear_all = some true := fun hh => h (Or.inl hh)
    unfold handleClearCache; simp [h1, ht]
  · intro h ht
    have h1 : ¬ req.clear_all = some true := fun hh => h (Or.inl hh)
    unfold handleClearCache; simp [h1, ht]
  · intro h ht
    unfold handleClearCache
    simp only [if_neg h]
    rcases hc : req.cache_type with _ | t
    · rfl
    · have := ht t hc
      simp only [List.mem_cons, List.mem_singleton] at this
      push_neg at this
      obtain ⟨h1, h2, h3, h4⟩ := this
      simp [h1, h2, h3, h4]

/-- Claim C1 (witness for the amended theorem): on caches of sizes
2/3/4/5, each of the four single-cache requests leaves the state
unchanged and lists exactly that cache's name. -/
theorem clearCache_amended_witness :
    (handleClearCache ⟨some "solver", none⟩ ⟨2, 3, 4, 5⟩).2 = ⟨2, 3, 4, 5⟩ ∧
    (handleClearCache ⟨some "player", none⟩ ⟨2, 3, 4, 5⟩).1 =
      .ok ⟨["player_cache"], 1, false⟩ ∧
    (handleClearCache ⟨some "solver", none⟩ ⟨2, 3, 4, 5⟩).1 =
      .ok ⟨["solver_cache"], 1, false⟩ ∧
    (handleClearCache ⟨some "preprocessed", none⟩ ⟨2, 3, 4, 5⟩).1 =
      .ok ⟨["preprocessed_cache"], 1, false⟩ ∧
    (handleClearCache ⟨some "sts", none⟩ ⟨2, 3, 4, 5⟩).1 =
      .ok ⟨["sts_cache"], 1, false⟩ := by
  have hp := clearCache_amended ⟨some "player", none⟩ ⟨2, 3, 4, 5⟩
  have hs := clearCache_amended ⟨some "solver", none⟩ ⟨2, 3, 4, 5⟩
  have hpp := clearCache_amended ⟨some "preprocessed", none⟩ ⟨2, 3, 4, 5⟩
  have hst := clearCache_amended ⟨some "sts", none⟩ ⟨2, 3, 4, 5⟩
  exact ⟨hs.1, hp.2.2.1 (by decide) (by decide), hs.2.2.2.1 (by decide) (by decide),
    hpp.2.2.2.2.1 (by decide) (by decide), hst.2.2.2.2.2.1 (by decide) (by decide)⟩

/-- Claim C2 (counterexample).  A `signatures` field that IS a well-formed
array still fails the whole batch with a 400 validation error as soon as a
single element lacks one field (here `n_param` is empty), contradicting
both "the batch as a whole never fails because a single item fails" and
"only a missing or non-array signatures field is a request-validation
error". -/
theorem batchDecrypt_counterexample :
    handleBatchDecrypt (some [⟨"abc", "", "https://www.youtube.com/s/player/x/player.js"⟩]) =
      .error (.invalidSignatureItem 0) := rfl

/-- Unfolding lemma for `handleBatchDecrypt` on an array body. -/
theorem handleBatchDecrypt_some (sigs : List SignatureItem) :
    handleBatchDecrypt (some sigs) =
      (match firstInvalidIndex sigs with
       | some i => .error (.invalidSignatureItem i)
       | none =>
           .ok (sigs.map simulateDecrypt,
                ⟨sigs.length, ((sigs.map simulateDecrypt).filter (·.success)).length,
                 sigs.length - ((sigs.map simulateDecrypt).filter (·.success)).length⟩)) := rfl

/-- All simulated results have `success := true`, so the filtered success
count equals the list length. -/
theorem successCount_eq_length (sigs : List SignatureItem) :
    ((sigs.map simulateDecrypt).filter (·.success)).length = sigs.length := by
  induction sigs with
  | nil => rfl
  | cons s t ih => simpa [simulateDecrypt] using ih

/-- Claim C2 (amended).  A missing or non-array `signatures` field is a
validation error, and so is any element with an empty
`encrypted_signature`, `n_param` or `player_url` (the whole batch then
fails with a 400 naming the first such index).  When every element has all
three fields non-empty, each element is processed independently, the
results echo the inputs with per-element `success: true`, but the
"decrypted" values are the literal strings `decrypted_` +
`encrypted_signature` and `decrypted_` + `n_param` — no signature solver
is consulted.  The summary is `{total = n, successful = n, failed = 0}`;
in particular an empty array yields `{0, 0, 0}` with `results = []`. -/
theorem batchDecrypt_amended (signatures : Option (List SignatureItem)) :
    (signatures = none → handleBatchDecrypt signatures = .error .missingSignatures) ∧
    (∀ sigs i, signatures = some sigs → firstInvalidIndex sigs = some i →
      handleBatchDecrypt signatures = .error (.invalidSignatureItem i)) ∧
    (∀ sigs, signatures = some sigs → firstInvalidIndex sigs = none →
      handleBatchDecrypt signatures =
        .ok (sigs.map simulateDecrypt, ⟨sigs.length, sigs.length, 0⟩)) ∧
    (signatures = some [] → handleBatchDecrypt signatures = .ok ([], ⟨0, 0, 0⟩)) := by
  refine ⟨?_, ?_, ?_, ?_⟩
  · intro h; rw [h]; rfl
  · intro sigs i hs hi
    subst hs
    rw [handleBatchDecrypt_some, hi]
  · intro sigs hs hi
    subst hs
    rw [handleBatchDecrypt_some, hi]
    simp only [successCount_eq_length, Nat.sub_self]
  · intro h; rw [h]; rfl

/-- Claim C2 (witness for the amended theorem): a two-element batch whose
fields are all non-empty succeeds with simulated results and summary
`{2, 2, 0}`. -/
theorem batchDecrypt_amended_witness :
    handleBatchDecrypt (some [⟨"AA", "BB", "u1"⟩, ⟨"CC", "DD", "u2"⟩]) =
      .ok ([⟨"AA", "BB", "u1", "decrypted_AA", "decrypted_BB", true⟩,
            ⟨"CC", "DD", "u2", "decrypted_CC", "decrypted_DD", true⟩], ⟨2, 2, 0⟩) := by
  have h := (batchDecrypt_amended (some [⟨"AA", "BB", "u1"⟩, ⟨"CC", "DD", "u2"⟩])).2.2.1
    [⟨"AA", "BB", "u1"⟩, ⟨"CC", "DD", "u2"⟩] rfl (by decide)
  simpa [simulateDecrypt] using h

/-- Claim C7 (confirmed).  In the decrypt handler, whenever evaluating the
sig solver (resp. the n solver) on the supplied token throws, the exception
is swallowed and `decrypted_signature` (resp. `decrypted_n_sig`) is the
empty string, while the response still has `success: true` and status 200;
each field is likewise empty whenever its token is absent (empty) or its
solver is absent; and a field whose solver evaluation returns normally
carries that value. -/
theorem decrypt_solver_throw_caught (enc nPar : String) (sv : Solvers) :
    ((handleDecryptSignature enc nPar sv).success = true ∧
     (handleDecryptSignature enc nPar sv).status = 200) ∧
    (∀ f e, sv.sig = some f → f enc = .error e →
      (handleDecryptSignature enc nPar sv).decrypted_signature = "") ∧
    (∀ g e, sv.n = some g → g nPar = .error e →
      (handleDecryptSignature enc nPar sv).decrypted_n_sig = "") ∧
    (enc = "" ∨ sv.sig = none →
      (handleDecryptSignature enc nPar sv).decrypted_signature = "") ∧
    (nPar = "" ∨ sv.n = none →
      (handleDecryptSignature enc nPar sv).decrypted_n_sig = "") ∧
    (∀ f d, sv.sig = some f → f enc = .ok d → enc ≠ "" →
      (handleDecryptSignature enc nPar sv).decrypted_signature = d) := by
  refine ⟨⟨rfl, rfl⟩, ?_, ?_, ?_, ?_, ?_⟩
  · intro f e hf he
    simp only [handleDecryptSignature, decryptField, hf]
    by_cases h : enc = "" <;> simp [h, he]
  · intro g e hg he
    simp only [handleDecryptSignature, decryptField, hg]
    by_cases h : nPar = "" <;> simp [h, he]
  · rintro (h | h) <;> simp [handleDecryptSignature, decryptField, h]
  · rintro (h | h) <;> simp [handleDecryptSignature, decryptField, h]
  · intro f d hf hd he
    simp [handleDecryptSignature, decryptField, hf, he, hd]

/-- Claim C7 (witness): with a sig solver that throws on `"tok"` and an n
solver that returns normally, the response is `success: true`, status 200,
empty `decrypted_signature` and `decrypted_n_sig = "N"`. -/
theorem decrypt_solver_throw_caught_witness :
    (handleDecryptSignature "tok" "np"
        ⟨some (fun _ => .error "boom"), some (fun _ => .ok "N")⟩).decrypted_signature = "" ∧
    (handleDecryptSignature "tok" "np"
        ⟨some (fun _ => .error "boom"), some (fun _ => .ok "N")⟩).success = true := by
  have h := decrypt_solver_throw_caught "tok" "np"
    ⟨some (fun _ => .error "boom"), some (fun _ => .ok "N")⟩
  exact ⟨h.2.1 _ "boom" rfl rfl, h.1.1⟩
/-! ## Lemmas about `setParam` / `deleteParam` / `resolveNStep` -/

theorem getParam_setParam_self (ps : Params) (k v : String) :
    getParam (setParam ps k v) k = some v := by
  induction ps with
  | nil => simp [setParam, getParam, findVal_cons]
  | cons p t ih =>
      unfold setParam
      by_cases h : p.1 = k
      · simp [h, getParam, findVal_cons]
      · simpa [h, getParam, findVal_cons] using ih

theorem getParam_setParam_ne (ps : Params) (k k' v : String) (h : k' ≠ k) :
    getParam (setParam ps k v) k' = getParam ps k' := by
  have hk : ¬ k = k' := fun hk => h hk.symm
  induction ps with
  | nil => simp [setParam, getParam, findVal_cons, findVal_nil, hk]
  | cons p t ih =>
      unfold setParam
      by_cases hp : p.1 = k
      · have hp' : p.1 ≠ k' := by rw [hp]; exact hk
        simp only [hp, if_pos]
        unfold getParam at *
        rw [findVal_cons, if_neg hk, findVal_eraseKey_ne _ _ _ h, findVal_cons, if_neg hp']
      · simp only [hp, ite_false]
        unfold getParam at *
        rw [findVal_cons, findVal_cons]
        by_cases hk' : p.1 = k'
        · simp [hk']
        · rw [if_neg hk', if_neg hk']; exact ih

theorem keyBindings_cons (p : String × String) (t : Params) (k : String) :
    keyBindings (p :: t) k = if p.1 = k then p :: keyBindings t k else keyBindings t k := by
  unfold keyBindings
  rw [List.filter_cons]
  by_cases h : p.1 = k <;> simp [h]

theorem keyBindings_eraseKey_ne (ps : Params) (k k' : String) (h : k' ≠ k) :
    keyBindings (eraseKey ps k) k' = keyBindings ps k' := by
  induction ps with
  | nil => rfl
  | cons p t ih =>
      rw [eraseKey_cons]
      by_cases hp : p.1 = k
      · have hp' : p.1 ≠ k' := by rw [hp]; exact fun hk => h hk.symm
        rw [if_pos hp, keyBindings_cons, if_neg hp']; exact ih
      · rw [if_neg hp, keyBindings_cons, keyBindings_cons]
        by_cases hk' : p.1 = k'
        · rw [if_pos hk', if_pos hk', ih]
        · rw [if_neg hk', if_neg hk']; exact ih

theorem keyBindings_setParam_ne (ps : Params) (k k' v : String) (h : k' ≠ k) :
    keyBindings (setParam ps k v) k' = keyBindings ps k' := by
  induction ps with
  | nil =>
      unfold setParam
      rw [keyBindings_cons, if_neg (fun hk => h hk.symm)]
  | cons p t ih =>
      unfold setParam
      by_cases hp : p.1 = k
      · simp only [hp, if_pos]
        rw [keyBindings_cons, if_neg (fun hk => h hk.symm), keyBindings_eraseKey_ne _ _ _ h,
          keyBindings_cons]
        have hp' : p.1 ≠ k' := by rw [hp]; exact fun hk => h hk.symm
        rw [if_neg hp']
      · simp only [hp, ite_false]
        rw [keyBindings_cons, keyBindings_cons]
        by_cases hk' : p.1 = k'
        · rw [if_pos hk', if_pos hk', ih]
        · rw [if_neg hk', if_neg hk']; exact ih

/-- `resolveNStep` either leaves the query untouched or sets key `n`. -/
theorem resolveNStep_cases (nPar : String) (sv : Solvers) (ps : Params) :
    resolveNStep nPar sv ps = ps ∨ ∃ d, resolveNStep nPar sv ps = setParam ps "n" d := by
  unfold resolveNStep
  rcases hn : sv.n with _ | g
  · left; rfl
  · simp only [nApply]
    by_cases h : effectiveNParam nPar ps = ""
    · left; rw [if_pos h]
    · rw [if_neg h]
      rcases hg : g (effectiveNParam nPar ps) with e | d
      · left; rfl
      · right; exact ⟨d, rfl⟩

theorem getParam_resolveNStep_ne (nPar : String) (sv : Solvers) (ps : Params)
    (k : String) (h : k ≠ "n") :
    getParam (resolveNStep nPar sv ps) k = getParam ps k := by
  rcases resolveNStep_cases nPar sv ps with h1 | ⟨d, h1⟩ <;> rw [h1]
  exact getParam_setParam_ne _ _ _ _ h

theorem keyBindings_resolveNStep_ne (nPar : String) (sv : Solvers) (ps : Params)
    (k : String) (h : k ≠ "n") :
    keyBindings (resolveNStep nPar sv ps) k = keyBindings ps k := by
  rcases resolveNStep_cases nPar sv ps with h1 | ⟨d, h1⟩ <;> rw [h1]
  exact keyBindings_setParam_ne _ _ _ _ h

/-- When the request carries a truthy `n_param` and the n solver returns
normally, `resolveNStep` sets `n` to the solver's output. -/
theorem resolveNStep_of_req (nPar : String) (sv : Solvers) (ps : Params)
    (g : SolverFn) (d : String) (h : nPar ≠ "") (hg : sv.n = some g)
    (hok : g nPar = .ok d) :
    resolveNStep nPar sv ps = setParam ps "n" d := by
  have he : effectiveNParam nPar ps = nPar := by unfold effectiveNParam; rw [if_neg h]
  unfold resolveNStep
  rw [hg, he]
  simp only [nApply]
  rw [if_neg h, hok]
  rfl

/-- When the request has no `n_param`, the URL's existing truthy `n` is
decrypted instead. -/
theorem resolveNStep_of_url (sv : Solvers) (ps : Params)
    (g : SolverFn) (m d : String) (hget : getParam ps "n" = some m) (hm : m ≠ "")
    (hg : sv.n = some g) (hok : g m = .ok d) :
    resolveNStep "" sv ps = setParam ps "n" d := by
  have he : effectiveNParam "" ps = m := by
    unfold effectiveNParam; rw [if_pos rfl, hget]; rfl
  unfold resolveNStep
  rw [hg, he]
  simp only [nApply]
  rw [if_neg hm, hok]
  rfl

/-- On a truthy `encrypted_signature` with a present, normally-returning
sig solver, the signature step sets the effective key and deletes `s`. -/
theorem resolveSigStep_ok (enc sigKeyRaw : String) (sv : Solvers) (ps : Params)
    (f : SolverFn) (d : String) (henc : enc ≠ "") (hf : sv.sig = some f)
    (hok : f enc = .ok d) :
    resolveSigStep enc sigKeyRaw sv ps =
      .ok (deleteParam (setParam ps (effectiveSigKey sigKeyRaw) d) "s") := by
  unfold resolveSigStep
  rw [if_neg henc, hf]
  simp only [sigApply]
  rw [hok]
  rfl

/-- A successful signature step leaves the query untouched or rewrites it
by setting the effective signature key and erasing `s`. -/
theorem resolveSigStep_shape (enc sigKeyRaw : String) (sv : Solvers) (ps ps1 : Params)
    (h : resolveSigStep enc sigKeyRaw sv ps = .ok ps1) :
    ps1 = ps ∨ ∃ d, ps1 = deleteParam (setParam ps (effectiveSigKey sigKeyRaw) d) "s" := by
  unfold resolveSigStep at h
  by_cases henc : enc = ""
  · rw [if_pos henc] at h
    left; exact (Except.ok.injEq _ _ ▸ h).symm
  · rw [if_neg henc] at h
    rcases hf : sv.sig with _ | f
    · rw [hf] at h; exact absurd h (by simp [sigApply])
    · rw [hf] at h
      simp only [sigApply] at h
      rcases hfe : f enc with e | d
      · rw [hfe] at h
        simp only [sigApplyResult, Except.ok.injEq] at h
        left; exact h.symm
      · rw [hfe] at h
        simp only [sigApplyResult, Except.ok.injEq] at h
        right; exact ⟨d, h.symm⟩

theorem except_map_ok (f : Params → Params) (x : Params) :
    (Except.map f (Except.ok x : Except ApiFailure Params)) = .ok (f x) := rfl

theorem resultGet_ok (ps : Params) (k : String) :
    resultGet (.ok ps) k = some (getParam ps k) := rfl

/-- Claim C6 (counterexample).  A request with `signature_key = "s"`: the
handler first sets `s` to the decrypted value and then deletes `s`, so the
resolved URL does NOT have the query parameter named by `signature_key`
set to the sig-decrypted value — it has no such parameter at all.  Input:
`encrypted_signature = "AA"`, sig solver returning `"DEC"`, stream query
`s=AA&c=WEB`. -/
theorem resolveUrl_counterexample :
    handleResolveUrl "AA" "s" "" ⟨some (fun _ => .ok "DEC"), none⟩ [("s", "AA"), ("c", "WEB")] =
      .ok [("c", "WEB")] ∧
    resultGet (handleResolveUrl "AA" "s" ""
        ⟨some (fun _ => .ok "DEC"), none⟩ [("s", "AA"), ("c", "WEB")]) "s" = some none := by
  constructor <;> rfl

/-- Claim C6 (amended).  For every `resolve_url` request, provided the
effective signature key (`signature_key`, defaulting to `"sig"`) is
neither `"s"` nor `"n"`: if `encrypted_signature` is present and the sig
solver exists (and returns normally), the resolved URL has the signature
key set to the sig-decrypted value and the parameter `s` deleted; if
`encrypted_signature` is present but the sig solver is absent, the request
fails hard with `NO_SIGNATURE_SOLVER`; every query parameter other than
the signature key, `n` and `s` is left untouched, and `s` is untouched
whenever `encrypted_signature` is absent; the effective n-parameter
prefers the body's `n_param` over the URL's existing `n`, and when it is
present together with an n solver (returning normally), `n` is set to its
decrypted value.  (When `signature_key = "s"` the set is undone by the
deletion of `s`, which is what the counterexample exhibits.) -/
theorem resolveUrl_amended (enc sigKeyRaw nPar : String) (sv : Solvers) (ps : Params) :
    (∀ f d, enc ≠ "" → sv.sig = some f → f enc = .ok d →
      effectiveSigKey sigKeyRaw ≠ "s" → effectiveSigKey sigKeyRaw ≠ "n" →
      resultGet (handleResolveUrl enc sigKeyRaw nPar sv ps)
          (effectiveSigKey sigKeyRaw) = some (some d) ∧
      resultGet (handleResolveUrl enc sigKeyRaw nPar sv ps) "s" = some none) ∧
    (enc ≠ "" → sv.sig = none →
      handleResolveUrl enc sigKeyRaw nPar sv ps = .error .noSignatureSolver) ∧
    (∀ ps' k, handleResolveUrl enc sigKeyRaw nPar sv ps = .ok ps' →
      k ≠ effectiveSigKey sigKeyRaw → k ≠ "n" → k ≠ "s" →
      keyBindings ps' k = keyBindings ps k) ∧
    (enc = "" → ∀ ps', handleResolveUrl enc sigKeyRaw nPar sv ps = .ok ps' →
      keyBindings ps' "s" = keyBindings ps "s") ∧
    (∀ g d ps', nPar ≠ "" → sv.n = some g → g nPar = .ok d →
      handleResolveUrl enc sigKeyRaw nPar sv ps = .ok ps' →
      getParam ps' "n" = some d) ∧
    (∀ g m d ps1, nPar = "" → sv.n = some g → getParam ps1 "n" = some m → m ≠ "" →
      g m = .ok d → getParam (resolveNStep nPar sv ps1) "n" = some d) := by
  refine ⟨?_, ?_, ?_, ?_, ?_, ?_⟩
  · intro f d henc hf hok hks hkn
    rw [handleResolveUrl, resolveSigStep_ok enc sigKeyRaw sv ps f d henc hf hok, except_map_ok]
    constructor
    · rw [resultGet_ok, getParam_resolveNStep_ne _ _ _ _ hkn]
      unfold deleteParam getParam
      rw [findVal_eraseKey_ne _ _ _ hks]
      exact congrArg some (getParam_setParam_self ps _ d)
    · rw [resultGet_ok, getParam_resolveNStep_ne _ _ _ _ (by decide)]
      unfold deleteParam getParam
      rw [findVal_eraseKey_self]
  · intro henc hf
    rw [handleResolveUrl]
    unfold resolveSigStep
    rw [if_neg henc, hf]
    rfl
  · intro ps' k hres hk1 hk2 hk3
    rw [handleResolveUrl] at hres
    rcases hs : resolveSigStep enc sigKeyRaw sv ps with e | ps1
    · rw [hs] at hres; exact absurd hres (by simp [Except.map])
    · rw [hs, except_map_ok, Except.ok.injEq] at hres
      subst hres
      rw [keyBindings_resolveNStep_ne _ _ _ _ hk2]
      rcases resolveSigStep_shape enc sigKeyRaw sv ps ps1 hs with h1 | ⟨d, h1⟩
      · rw [h1]
      · rw [h1]
        unfold deleteParam
        rw [keyBindings_eraseKey_ne _ _ _ hk3, keyBindings_setParam_ne _ _ _ _ hk1]
  · intro henc ps' hres
    rw [handleResolveUrl] at hres
    unfold resolveSigStep at hres
    rw [if_pos henc, except_map_ok, Except.ok.injEq] at hres
    subst hres
    exact keyBindings_resolveNStep_ne _ _ _ _ (by decide)
  · intro g d ps' hn hg hok hres
    rw [handleResolveUrl] at hres
    rcases hs : resolveSigStep enc sigKeyRaw sv ps with e | ps1
    · rw [hs] at hres; exact absurd hres (by simp [Except.map])
    · rw [hs, except_map_ok, Except.ok.injEq] at hres
      subst hres
      rw [resolveNStep_of_req nPar sv ps1 g d hn hg hok]
      exact getParam_setParam_self _ _ _
  · intro g m d ps1 hn hg hget hm hok
    subst hn
    rw [resolveNStep_of_url sv ps1 g m d hget hm hg hok]
    exact getParam_setParam_self _ _ _

/-- Claim C6 (witness for the amended theorem): default signature key,
prefixing solvers, stream query `c=WEB&s=AA&n=BB`, body n_param `NN`:
the rewritten query has `sig = SAA` and no `s` parameter. -/
theorem resolveUrl_amended_witness :
    resultGet (handleResolveUrl "AA" "" "NN"
        ⟨some (fun s => .ok ("S" ++ s)), some (fun s => .ok ("N" ++ s))⟩
        [("c", "WEB"), ("s", "AA"), ("n", "BB")]) "sig" = some (some "SAA") ∧
    resultGet (handleResolveUrl "AA" "" "NN"
        ⟨some (fun s => .ok ("S" ++ s)), some (fun s => .ok ("N" ++ s))⟩
        [("c", "WEB"), ("s", "AA"), ("n", "BB")]) "s" = some none := by
  have h := (resolveUrl_amended "AA" "" "NN"
      ⟨some (fun s => .ok ("S" ++ s)), some (fun s => .ok ("N" ++ s))⟩
      [("c", "WEB"), ("s", "AA"), ("n", "BB")]).1
    (fun s => .ok ("S" ++ s)) "SAA" (by decide) rfl rfl (by decide) (by decide)
  exact ⟨h.1, h.2⟩


/-! ## Claim C5: theorems about `handleGetSts` -/

/-- Claim C5 (confirmed).  For a `get_sts` request whose player script is
on disk (content given) and not answered from the sts cache: a script
shorter than 1000 characters is rejected as invalid player content; the
script is otherwise scanned with the ordered pattern list, first match
wins, starting with `(?:signatureTimestamp|sts):\s*(\d+)`; a matched
value above 9999999999 is rejected as an invalid STS value (digit captures
are never negative); an in-range value — 0 and 9999999999 included — is
written to the sts cache and returned as its decimal string; and when no
pattern matches, the outcome is the 404 not-found error. -/
theorem getSts_spec (cached : Option String) (content : String) :
    (content.length < 1000 → handleGetStsCold content = (.invalidContent, none)) ∧
    (∀ ds, scanFirst pat1At content.toList = some ds →
      stsExtract content.toList = some ds) ∧
    (∀ ds, ¬ content.length < 1000 → stsExtract content.toList = some ds →
      digitsToNat ds ≤ 9999999999 →
      handleGetStsCold content = (.ok (String.mk ds), some (String.mk ds))) ∧
    (∀ ds, ¬ content.length < 1000 → stsExtract content.toList = some ds →
      digitsToNat ds > 9999999999 → handleGetStsCold content = (.invalidValue, none)) ∧
    (¬ content.length < 1000 → stsExtract content.toList = none →
      handleGetStsCold content = (.notFound, none) ∧
      stsHttpStatus (handleGetStsCold content).1 = 404) ∧
    (cached = none → handleGetSts cached content = handleGetStsCold content) := by
  refine ⟨?_, ?_, ?_, ?_, ?_, ?_⟩
  · intro h; unfold handleGetStsCold; rw [if_pos h]
  · intro ds h
    unfold stsExtract stsPatternList tryPatterns
    rw [h]
  · intro ds hlen hex hle
    unfold handleGetStsCold
    rw [if_neg hlen, hex]
    show stsOfDigits ds = _
    unfold stsOfDigits
    rw [if_neg (by omega)]
  · intro ds hlen hex hgt
    unfold handleGetStsCold
    rw [if_neg hlen, hex]
    show stsOfDigits ds = _
    unfold stsOfDigits
    rw [if_pos hgt]
  · intro hlen hex
    have h : handleGetStsCold content = (.notFound, none) := by
      unfold handleGetStsCold
      rw [if_neg hlen, hex]
    exact ⟨h, by rw [h]; rfl⟩
  · intro h; rw [h]; rfl

set_option maxRecDepth 100000 in
/-- Claim C5 (witness): a 1009-character script starting with
`signatureTimestamp:9999999999` yields `sts = "9999999999"` (the upper
boundary value is accepted) and the value is cached; and a script carrying
`sts:0` yields `"0"` (the lower boundary value is accepted). -/
theorem getSts_spec_witness :
    handleGetStsCold ("signatureTimestamp:9999999999" ++ String.mk (List.replicate 980 'a')) =
      (.ok "9999999999", some "9999999999") ∧
    handleGetStsCold ("sts:0" ++ String.mk (List.replicate 995 'b')) =
      (.ok "0", some "0") := by
  constructor
  · have h := (getSts_spec none
        ("signatureTimestamp:9999999999" ++ String.mk (List.replicate 980 'a'))).2.2.1
      "9999999999".toList (by decide) (by decide) (by decide)
    exact h
  · have h := (getSts_spec none ("sts:0" ++ String.mk (List.replicate 995 'b'))).2.2.1
      "0".toList (by decide) (by decide) (by decide)
    exact h


/-! ## Claim C8: theorems about `initializeCache` -/

/-- Claim C8 (counterexample).  A file whose atime is 15 days old but
whose mtime is `now`: its newest timestamp is `now`, which is not older
than 14 days, so the claim says it survives — yet `initializeCache`
deletes it (the source uses atime with `??` fallbacks, never the newest),
and publishes a gauge of 0 survivors. -/
theorem initializeCache_counterexample :
    initializeCache 2000000000000
        [("f", ⟨true, some (2000000000000 - 1296000000), some 2000000000000, none⟩)] =
      (["f"], 0) ∧
    spec_newestTimestamp ⟨true, some (2000000000000 - 1296000000),
        some 2000000000000, none⟩ = some 2000000000000 ∧
    2000000000000 - 2000000000000 ≤ fourteenDays := by
  refine ⟨by decide, by decide, by decide⟩

/-- Claim C8 (amended).  During player-store startup initialization,
exactly those files in the store directory whose FIRST available
timestamp among atime, mtime, birthtime (in that order, the `??`
fallback chain) is nonzero and older than 14 days are deleted; every
other file survives (non-file entries are ignored), and the count of
surviving files is published as the player cache size gauge. -/
theorem initializeCache_amended (now : Nat) (dir : List (String × FileStat)) :
    initializeCache now dir =
      ((dir.filter (fun e => e.2.isFile && isStale now e.2)).map (·.1),
       (dir.filter (fun e => e.2.isFile && !isStale now e.2)).length) ∧
    (∀ st : FileStat, isStale now st = true ↔
      ∃ t, lastAccessedOf st = some t ∧ t ≠ 0 ∧ now - t > fourteenDays) := by
  constructor
  · induction dir with
    | nil => rfl
    | cons e rest ih =>
        obtain ⟨name, st⟩ := e
        simp only [initializeCache, ih, List.filter_cons]
        by_cases hf : st.isFile
        · by_cases hs : isStale now st = true
          · simp [hf, hs]
          · simp [hf, hs]
        · simp [hf]
  · intro st
    constructor
    · intro hs
      unfold isStale at hs
      rcases h : lastAccessedOf st with _ | t
      · rw [h] at hs; exact absurd hs (by simp)
      · rw [h] at hs
        simp only [Bool.and_eq_true, bne_iff_ne, ne_eq, decide_eq_true_eq] at hs
        exact ⟨t, rfl, hs.1, hs.2⟩
    · rintro ⟨t, h, ht0, hgt⟩
      unfold isStale
      rw [h]
      simp [ht0, hgt]

/-- Claim C8 (witness): with one stale file (atime 1 ms), one fresh file
(atime = now) and one directory entry, only the stale file is deleted and
the gauge is 1. -/
theorem initializeCache_amended_witness :
    initializeCache 2000000000000
        [("old", ⟨true, some 1, none, none⟩),
         ("new", ⟨true, some 2000000000000, none, none⟩),
         ("d", ⟨false, some 1, none, none⟩)] = (["old"], 1) := by
  have h := (initializeCache_amended 2000000000000
      [("old", ⟨true, some 1, none, none⟩),
       ("new", ⟨true, some 2000000000000, none, none⟩),
       ("d", ⟨false, some 1, none, none⟩)]).1
  rw [h]
  decide


/-! ## Claim C9: lemmas about the instrumented cache -/

theorem countGet_entries (c : InstrumentedLRU V) (r : Option V) :
    (InstrumentedLRU.countGet c r).entries = c.entries := by cases r <;> rfl

theorem countGet_lru (c : InstrumentedLRU V) (r : Option V) :
    (InstrumentedLRU.countGet c r).lru = c.lru := by cases r <;> rfl

theorem get_fst (c : InstrumentedLRU V) (now : Nat) (k : String) :
    (c.get now k).1 = (c.getInner now k).1 := rfl

theorem get_snd_entries (c : InstrumentedLRU V) (now : Nat) (k : String) :
    ((c.get now k).2).entries = ((c.getInner now k).2).entries :=
  countGet_entries _ _

theorem get_snd_lru (c : InstrumentedLRU V) (now : Nat) (k : String) :
    ((c.get now k).2).lru = ((c.getInner now k).2).lru :=
  countGet_lru _ _

theorem getInner_expired (c : InstrumentedLRU V) (now : Nat) (k : String)
    (v : V) (ts : Nat) (he : findVal c.entries k = some (v, ts))
    (hexp : now - ts > c.ttl) :
    c.getInner now k = (none, (c.delete k).2) := by
  unfold InstrumentedLRU.getInner
  rw [he]
  simp only [InstrumentedLRU.getChecked]
  rw [if_pos hexp]

theorem getInner_fresh (c : InstrumentedLRU V) (now : Nat) (k : String)
    (v : V) (ts : Nat) (he : findVal c.entries k = some (v, ts))
    (hexp : ¬ now - ts > c.ttl) :
    c.getInner now k = c.superGet k := by
  unfold InstrumentedLRU.getInner
  rw [he]
  simp only [InstrumentedLRU.getChecked]
  rw [if_neg hexp]

theorem getInner_nocache (c : InstrumentedLRU V) (now : Nat) (k : String)
    (he : findVal c.entries k = none) :
    c.getInner now k = c.superGet k := by
  unfold InstrumentedLRU.getInner
  rw [he]
  rfl

theorem superGet_fst (c : InstrumentedLRU V) (k : String) :
    (c.superGet k).1 = findVal c.lru.items k := by
  unfold InstrumentedLRU.superGet lruGetStep
  rcases h : findVal c.lru.items k with _ | v <;> rfl

theorem superGet_entries (c : InstrumentedLRU V) (k : String) :
    ((c.superGet k).2).entries = c.entries := rfl

/-- A key readable from the rotated LRU list was readable before. -/
theorem lruGetStep_find (l : LruState V) (k k' : String) (v : V)
    (h : findVal ((lruGetStep l k).2).items k' = some v) :
    findVal l.items k' = some v := by
  unfold lruGetStep at h
  rcases hf : findVal l.items k with _ | w
  · rw [hf] at h; exact h
  · rw [hf] at h
    simp only [lruGetFound] at h
    rw [findVal_cons] at h
    by_cases hk : k = k'
    · subst hk
      rw [if_pos rfl] at h
      rw [hf]; exact h
    · rw [if_neg hk] at h
      rw [findVal_eraseKey_ne _ _ _ (fun he => hk he.symm)] at h
      exact h

theorem inv_mkEmpty (maxSize ttl : Nat) :
    CacheInv (InstrumentedLRU.mkEmpty V maxSize ttl) := by
  intro k v h
  exact absurd h (by simp [InstrumentedLRU.mkEmpty, findVal_nil])

theorem inv_delete (c : InstrumentedLRU V) (k : String) (h : CacheInv c) :
    CacheInv (c.delete k).2 := by
  intro k' v hv
  have hv' : findVal (eraseKey c.lru.items k) k' = some v := hv
  by_cases hk : k' = k
  · subst hk
    rw [findVal_eraseKey_self] at hv'
    cases hv'
  · rw [findVal_eraseKey_ne _ _ _ hk] at hv'
    obtain ⟨ts, hts⟩ := h k' v hv'
    refine ⟨ts, ?_⟩
    show findVal (eraseKey c.entries k) k' = some (v, ts)
    rw [findVal_eraseKey_ne _ _ _ hk]
    exact hts

theorem inv_superGet (c : InstrumentedLRU V) (k : String) (h : CacheInv c) :
    CacheInv (c.superGet k).2 := by
  intro k' v hv
  have hv2 : findVal ((lruGetStep c.lru k).2).items k' = some v := hv
  exact h k' v (lruGetStep_find c.lru k k' v hv2)

theorem inv_getInner (c : InstrumentedLRU V) (now : Nat) (k : String)
    (h : CacheInv c) : CacheInv (c.getInner now k).2 := by
  rcases he : findVal c.entries k with _ | ⟨w, ts⟩
  · rw [getInner_nocache c now k he]
    exact inv_superGet c k h
  · by_cases hexp : now - ts > c.ttl
    · rw [getInner_expired c now k w ts he hexp]
      exact inv_delete c k h
    · rw [getInner_fresh c now k w ts he hexp]
      exact inv_superGet c k h

theorem inv_get (c : InstrumentedLRU V) (now : Nat) (k : String)
    (h : CacheInv c) : CacheInv (c.get now k).2 := by
  intro k' v hv
  rw [get_snd_lru c now k] at hv
  obtain ⟨ts, hts⟩ := inv_getInner c now k h k' v hv
  refine ⟨ts, ?_⟩
  rw [get_snd_entries c now k]
  exact hts

theorem lruSetStep_items (cap : Nat) (l : LruState V) (k : String) (v : V) :
    (lruSetStep cap l k v).items =
      if ((k, v) :: eraseKey l.items k).length > cap
      then ((k, v) :: eraseKey l.items k).dropLast
      else ((k, v) :: eraseKey l.items k) := rfl

theorem inv_set (c : InstrumentedLRU V) (now : Nat) (k : String) (v : V)
    (h : CacheInv c) : CacheInv (c.set now k v) := by
  intro k' w hw
  have hw0 : findVal (lruSetStep c.maxSize c.lru k v).items k' = some w := hw
  rw [lruSetStep_items] at hw0
  have hw1 : findVal ((k, v) :: eraseKey c.lru.items k) k' = some w := by
    by_cases hl : ((k, v) :: eraseKey c.lru.items k).length > c.maxSize
    · rw [if_pos hl] at hw0
      exact findVal_dropLast_some _ _ _ hw0
    · rw [if_neg hl] at hw0
      exact hw0
  rw [findVal_cons] at hw1
  have hent : (c.set now k v).entries = (k, (v, now)) :: eraseKey c.entries k := rfl
  by_cases hk : k = k'
  · rw [if_pos hk] at hw1
    have hv : v = w := Option.some.inj hw1
    refine ⟨now, ?_⟩
    rw [hent, findVal_cons, if_pos hk]
    show some (v, now) = some (w, now)
    rw [hv]
  · rw [if_neg hk] at hw1
    rw [findVal_eraseKey_ne _ _ _ (fun he => hk he.symm)] at hw1
    obtain ⟨ts, hts⟩ := h k' w hw1
    refine ⟨ts, ?_⟩
    rw [hent, findVal_cons, if_neg hk, findVal_eraseKey_ne _ _ _ (fun he => hk he.symm)]
    exact hts

theorem inv_clear (c : InstrumentedLRU V) (_h : CacheInv c) : CacheInv c.clear := by
  intro k v hv
  exact absurd hv (by simp [InstrumentedLRU.clear, findVal_nil])

theorem inv_has (c : InstrumentedLRU V) (now : Nat) (k : String)
    (h : CacheInv c) : CacheInv (c.has now k).2 := by
  unfold InstrumentedLRU.has
  rcases he : findVal c.entries k with _ | ⟨w, ts⟩
  · exact h
  · simp only [InstrumentedLRU.hasChecked]
    by_cases hexp : now - ts > c.ttl
    · rw [if_pos hexp]
      exact fun k' v hv => inv_delete c k h k' v hv
    · rw [if_neg hexp]
      exact h

theorem inv_touch (c : InstrumentedLRU V) (now : Nat) (k : String)
    (h : CacheInv c) : CacheInv (c.touch now k).2 := by
  unfold InstrumentedLRU.touch
  rcases he : findVal c.entries k with _ | ⟨w, ts⟩
  · exact h
  · simp only [InstrumentedLRU.touchChecked]
    intro k' v hv
    obtain ⟨ts', hts⟩ := h k' v hv
    by_cases hk : k = k'
    · subst hk
      rw [he] at hts
      injection hts with hts
      have hwv : w = v := congrArg Prod.fst hts
      refine ⟨now, ?_⟩
      show findVal ((k, (w, now)) :: eraseKey c.entries k) k = some (v, now)
      rw [findVal_cons, if_pos rfl]
      show some (w, now) = some (v, now)
      rw [hwv]
    · refine ⟨ts', ?_⟩
      show findVal ((k, (w, now)) :: eraseKey c.entries k) k' = some (v, ts')
      rw [findVal_cons, if_neg hk, findVal_eraseKey_ne _ _ _ (fun hx => hk hx.symm)]
      exact hts

theorem inv_cleanup (c : InstrumentedLRU V) (now : Nat)
    (h : CacheInv c) : CacheInv (c.cleanup now) := by
  unfold InstrumentedLRU.cleanup
  generalize (c.entries.filter (fun e => decide (now - e.2.2 > c.ttl))).map (·.1) = ks
  induction ks generalizing c with
  | nil => exact h
  | cons a t ih =>
      exact ih ((c.delete a).2) (inv_delete c a h)

theorem inv_applyOp (c : InstrumentedLRU V) (op : CacheOp V)
    (h : CacheInv c) : CacheInv (applyOp c op) := by
  cases op with
  | get now k => exact inv_get c now k h
  | set now k v => exact inv_set c now k v h
  | del k => exact inv_delete c k h
  | clear => exact inv_clear c h
  | has now k => exact inv_has c now k h
  | touch now k => exact inv_touch c now k h
  | cleanup now => exact inv_cleanup c now h

/-- Every reachable cache state couples its LRU and `entries` stores. -/
theorem reachable_inv (c : InstrumentedLRU V) (h : Reachable c) : CacheInv c := by
  induction h with
  | init maxSize ttl => exact inv_mkEmpty maxSize ttl
  | step c op hc ih => exact inv_applyOp c op ih

/-- Claim C9 (confirmed).  For the instrumented tiered cache and every
key: a `get` at a time `now` with `now - inserted_at > ttl` for the key's
entry returns absent and deletes the entry (from both the timestamp map
and the LRU); a `get` within the TTL returns the value the cache stores
for the key; `set` (the cache's put) inserts the entry — it becomes
readable with insert time `now` (capacity at least 1) — or refreshes its
insert time; and consequently, from any reachable state, every value
returned by `get` has an entry whose insert time `ts` (set by its last
put, or refreshed by a later touch) satisfies `now - ts ≤ ttl` at read
time. -/
theorem instrumentedCache_ttl_spec (V : Type) (c : InstrumentedLRU V)
    (now : Nat) (k : String) :
    (∀ v ts, findVal c.entries k = some (v, ts) → now - ts > c.ttl →
      (c.get now k).1 = none ∧
      findVal ((c.get now k).2).entries k = none ∧
      findVal ((c.get now k).2).lru.items k = none) ∧
    (∀ v ts w, findVal c.entries k = some (v, ts) → ¬ now - ts > c.ttl →
      findVal c.lru.items k = some w → (c.get now k).1 = some w) ∧
    (∀ v, 1 ≤ c.maxSize →
      findVal (c.set now k v).entries k = some (v, now) ∧
      findVal (c.set now k v).lru.items k = some v) ∧
    (Reachable c → ∀ v, (c.get now k).1 = some v →
      ∃ ts, findVal c.entries k = some (v, ts) ∧ now - ts ≤ c.ttl) := by
  refine ⟨?_, ?_, ?_, ?_⟩
  · intro v ts he hexp
    have hi := getInner_expired c now k v ts he hexp
    refine ⟨?_, ?_, ?_⟩
    · rw [get_fst, hi]
    · rw [get_snd_entries, hi]
      show findVal (eraseKey c.entries k) k = none
      exact findVal_eraseKey_self _ _
    · rw [get_snd_lru, hi]
      show findVal (eraseKey c.lru.items k) k = none
      exact findVal_eraseKey_self _ _
  · intro v ts w he hexp hw
    have hi := getInner_fresh c now k v ts he hexp
    rw [get_fst, hi, superGet_fst]
    exact hw
  · intro v hcap
    constructor
    · show findVal ((k, (v, now)) :: eraseKey c.entries k) k = some (v, now)
      rw [findVal_cons, if_pos rfl]
    · have hgoal : findVal (lruSetStep c.maxSize c.lru k v).items k = some v := by
        rw [lruSetStep_items]
        rcases hrest : eraseKey c.lru.items k with _ | ⟨p, t⟩
        · by_cases hl : ((k, v) :: ([] : List (String × V))).length > c.maxSize
          · exact absurd hl (by simp; omega)
          · rw [if_neg hl, findVal_cons, if_pos rfl]
        · by_cases hl : ((k, v) :: p :: t).length > c.maxSize
          · rw [if_pos hl, List.dropLast_cons_of_ne_nil (by simp), findVal_cons, if_pos rfl]
          · rw [if_neg hl, findVal_cons, if_pos rfl]
      exact hgoal
  · intro hreach v hv
    have inv := reachable_inv c hreach
    rcases he : findVal c.entries k with _ | ⟨w, ts⟩
    · rw [get_fst, getInner_nocache c now k he, superGet_fst] at hv
      obtain ⟨ts, hts⟩ := inv k v hv
      rw [he] at hts
      cases hts
    · by_cases hexp : now - ts > c.ttl
      · rw [get_fst, getInner_expired c now k w ts he hexp] at hv
        cases hv
      · rw [get_fst, getInner_fresh c now k w ts he hexp, superGet_fst] at hv
        obtain ⟨ts', hts⟩ := inv k v hv
        rw [he] at hts
        injection hts with hts
        have hw : w = v := congrArg Prod.fst hts
        refine ⟨ts, ?_, Nat.le_of_not_lt hexp⟩
        show some (w, ts) = some (v, ts)
        rw [hw]

/-- Claim C9 (witness): on a cache of capacity 2 and TTL 10 holding `k`
put at time 5: a get at time 20 is expired (absent, entry deleted), a get
at time 7 returns the stored value 42, and the put itself made the entry
readable with insert time 5. -/
theorem instrumentedCache_ttl_spec_witness :
    (((InstrumentedLRU.mkEmpty Nat 2 10).set 5 "k" 42).get 20 "k").1 = none ∧
    findVal ((((InstrumentedLRU.mkEmpty Nat 2 10).set 5 "k" 42).get 20 "k").2).entries "k"
      = none ∧
    (((InstrumentedLRU.mkEmpty Nat 2 10).set 5 "k" 42).get 7 "k").1 = some 42 ∧
    findVal (((InstrumentedLRU.mkEmpty Nat 2 10).set 5 "k" 42).entries) "k" = some (42, 5) := by
  have h20 := instrumentedCache_ttl_spec Nat ((InstrumentedLRU.mkEmpty Nat 2 10).set 5 "k" 42)
    20 "k"
  have h7 := instrumentedCache_ttl_spec Nat ((InstrumentedLRU.mkEmpty Nat 2 10).set 5 "k" 42)
    7 "k"
  have h5 := instrumentedCache_ttl_spec Nat (InstrumentedLRU.mkEmpty Nat 2 10) 5 "k"
  have hset := (h5.2.2.1 42 (by decide))
  obtain ⟨he20, hent20, _⟩ := h20.1 42 5 hset.1 (by decide)
  refine ⟨he20, hent20, ?_, hset.1⟩
  exact h7.2.1 42 5 42 hset.1 (by decide) hset.2


/-! ## Claims C4 and C10: theorems about the auth gate -/

theorem withAuthRejects_none (p : String) (h : Option String) :
    withAuthRejects none p h = false := by
  unfold withAuthRejects
  split
  · rfl
  · rfl

theorem public_not_core (p : String) (h : isPublicPath p = true) :
    isCoreApiPath p = false := by
  simp only [isPublicPath, Bool.or_eq_true, beq_iff_eq] at h
  rcases h with ((((h | h) | h) | h) | h) | h <;> subst h <;> decide

/-- Claim C4 (counterexample).  With the non-default token `tok123`
configured via `API_TOKEN`, a core request carrying
`Authorization: Basic base64("user:tok123")` — exactly the form the claim
says is accepted — is rejected by the gate: `baseHandler` compares the
header only against `Bearer tok123` and the raw token.  The second
conjunct confirms the header really encodes `user:tok123`. -/
theorem auth_basic_counterexample :
    coreAuthAccepts (some "tok123") none "/decrypt_signature"
      (some ("Basic " ++ base64Encode (strToBytes "user:tok123"))) = false ∧
    bytesToStr ((base64Decode (base64Encode (strToBytes "user:tok123"))).getD []) =
      "user:tok123" := by
  constructor <;> decide

/-- Claim C4 (amended).  Whenever a non-default API token `t` is
configured through `API_TOKEN` (and the separate `RY4N` token of the
`withAuth` middleware is unset), a request to a core endpoint is accepted
past the auth gate if and only if its Authorization header is exactly
`Bearer t` or exactly `t` — a `Basic base64(user:t)` header is rejected;
the root, metrics, health, status, info and swagger paths are served
before the auth block and so are never rejected by it, and `withAuth`
skips its check on the health, metrics, status and docs paths. -/
theorem auth_gate_amended (apiEnv ry4nEnv : Option String) (p : String)
    (h : Option String) :
    (∀ t, apiEnv = some t → t ≠ "" → t ≠ "YOUR_API_TOKEN" → ry4nEnv = none →
      isCoreApiPath p = true →
      (coreAuthAccepts apiEnv ry4nEnv p h = true ↔
        (h = some ("Bearer " ++ t) ∨ h = some t))) ∧
    (isPublicPath p = true → baseHandlerGate apiEnv p h = .handledPublic) ∧
    ((p = "/health" ∨ p = "/metrics" ∨ p = "/status" ∨ p = "/api/docs") →
      withAuthRejects ry4nEnv p h = false) := by
  refine ⟨?_, ?_, ?_⟩
  · intro t ht he hy hr hc
    subst ht
    subst hr
    unfold coreAuthAccepts
    rw [withAuthRejects_none]
    simp only [Bool.not_false, Bool.and_true]
    have hpub : isPublicPath p = false := by
      cases hp : isPublicPath p
      · rfl
      · exact absurd (public_not_core p hp) (by rw [hc]; simp)
    have htok : configApiToken (some t) = t := by
      simp only [configApiToken]
      rw [if_neg he]
    have hdis : authDisabled t = false := by
      simp [authDisabled, he, hy]
    unfold baseHandlerGate
    rw [if_neg (by rw [hpub]; simp), if_pos hc, htok, hdis]
    rw [if_neg (by simp)]
    have hbb : baseAuthAccepts t h = true ↔
        (h = some ("Bearer " ++ t) ∨ h = some t) := by
      simp [baseAuthAccepts]
    by_cases hacc : baseAuthAccepts t h = true
    · rw [if_pos hacc]
      exact iff_of_true (by decide) (hbb.mp hacc)
    · rw [if_neg hacc]
      exact iff_of_false (by decide) (fun hor => hacc (hbb.mpr hor))
  · intro hp
    unfold baseHandlerGate
    rw [if_pos hp]
  · rintro (hp | hp | hp | hp) <;> subst hp <;>
      (unfold withAuthRejects; rw [if_pos (by decide)])

/-- Claim C4 (witness for the amended theorem): with `API_TOKEN=tok123`, a
`Bearer tok123` header is accepted on `/decrypt_signature` and a wrong
header is rejected; `/health` is served before the auth block. -/
theorem auth_gate_amended_witness :
    coreAuthAccepts (some "tok123") none "/decrypt_signature" (some "Bearer tok123") = true ∧
    coreAuthAccepts (some "tok123") none "/decrypt_signature" (some "wrong") = false ∧
    baseHandlerGate (some "tok123") "/health" none = .handledPublic := by
  have h1 := (auth_gate_amended (some "tok123") none "/decrypt_signature"
      (some "Bearer tok123")).1 "tok123" rfl (by decide) (by decide) rfl (by decide)
  have h2 := (auth_gate_amended (some "tok123") none "/decrypt_signature"
      (some "wrong")).1 "tok123" rfl (by decide) (by decide) rfl (by decide)
  have h3 := (auth_gate_amended (some "tok123") none "/health" none).2.1 (by decide)
  refine ⟨h1.mpr (Or.inl rfl), ?_, h3⟩
  have hne : ¬ (coreAuthAccepts (some "tok123") none "/decrypt_signature"
      (some "wrong") = true) := by
    intro hc
    rcases h2.mp hc with hx | hx <;> exact absurd hx (by decide)
  exact Bool.eq_false_iff.mpr hne

/-- Claim C10 (confirmed).  With `API_TOKEN` unset, the server falls back
to the built-in token `YO_TOKEN`; that token is neither empty nor the
placeholder `YOUR_API_TOKEN`, so authentication is enforced: every request
to a core endpoint whose Authorization header is neither `Bearer YO_TOKEN`
nor `YO_TOKEN` — including requests with no Authorization header — is
rejected by `baseHandler` with status 401. -/
theorem default_token_auth (p : String) (h : Option String) :
    configApiToken none = "YO_TOKEN" ∧
    authDisabled (configApiToken none) = false ∧
    (isCoreApiPath p = true → h ≠ some "Bearer YO_TOKEN" → h ≠ some "YO_TOKEN" →
      baseHandlerGate none p h = .unauthorized ∧
      gateHttpStatus (baseHandlerGate none p h) = some 401) := by
  refine ⟨rfl, by decide, ?_⟩
  intro hc h1 h2
  have hpub : isPublicPath p = false := by
    cases hp : isPublicPath p
    · rfl
    · exact absurd (public_not_core p hp) (by rw [hc]; simp)
  have happ : "Bearer " ++ "YO_TOKEN" = "Bearer YO_TOKEN" := rfl
  have hacc : baseAuthAccepts "YO_TOKEN" h = false := by
    simp [baseAuthAccepts, happ, h1, h2]
  have hgate : baseHandlerGate none p h = .unauthorized := by
    unfold baseHandlerGate
    rw [if_neg (by rw [hpub]; simp), if_pos hc]
    rw [show configApiToken none = "YO_TOKEN" from rfl]
    rw [show authDisabled "YO_TOKEN" = false from by decide]
    rw [hacc]
    simp
  exact ⟨hgate, by rw [hgate]; rfl⟩

/-- Claim C10 (witness): a `/decrypt_signature` request with no
Authorization header is rejected with 401 under the default token. -/
theorem default_token_auth_witness :
    baseHandlerGate none "/decrypt_signature" none = .unauthorized ∧
    gateHttpStatus (baseHandlerGate none "/decrypt_signature" none) = some 401 := by
  exact (default_token_auth "/decrypt_signature" none).2.2
    (by decide) (by decide) (by decide)

/-! ## Claim C3: theorems about the `getSolvers` interleaving model -/

/-- Claim C3 (counterexample).  An explicit interleaving of two concurrent
cold `getSolvers` calls (preprocess = identity, extractor = `some`) under
which BOTH callers run the read+preprocess+extract steps: the preprocess
runs twice — not "exactly once" — even though both calls complete and
return the same pair.  The source has no single-flight table, so nothing
prevents this schedule. -/
theorem getSolvers_counterexample :
    (c3run id some concSched c3init).sh.preprocessCount = 2 ∧
    (c3run id some concSched c3init).t0 = .done (some "raw") ∧
    (c3run id some concSched c3init).t1 = .done (some "raw") := by
  refine ⟨by decide, by decide, by decide⟩

/-- Claim C3 (amended).  `getSolvers` enforces no single-flight: there is
an interleaving of two concurrent cold calls with the same fingerprint
under which both callers run the fetch-path pipeline and the preprocess
function is invoked twice (for every preprocess and extractor function).
Only when the calls are serialized does the claimed behaviour hold: the
first caller runs fetch, preprocess and extract exactly once, and the
second is answered from the solver cache, both receiving the same
resulting pair. -/
theorem getSolvers_amended (pf : String → String) (ef : String → Option String) :
    (∀ sv, ef (pf rawScript) = some sv →
      (c3run pf ef serialSched c3init).sh.fetchCount = 1 ∧
      (c3run pf ef serialSched c3init).sh.preprocessCount = 1 ∧
      (c3run pf ef serialSched c3init).t0 = .done (some sv) ∧
      (c3run pf ef serialSched c3init).t1 = .done (some sv)) ∧
    (c3run pf ef concSchedPre c3init).sh.preprocessCount = 2 := by
  constructor
  · intro sv hsv
    simp only [c3run, serialSched, c3init, List.replicate, List.append_eq,
      List.cons_append, List.nil_append, List.foldl, c3step, sectionStep,
      if_false, if_true, hsv]
    exact ⟨rfl, rfl, rfl, rfl⟩
  · rfl

/-- Claim C3 (witness for the amended theorem): with identity preprocess
and `some` extractor, the serialized run fetches once, preprocesses once
and hands both callers the pair for `"raw"`. -/
theorem getSolvers_amended_witness :
    (c3run id some serialSched c3init).sh.fetchCount = 1 ∧
    (c3run id some serialSched c3init).sh.preprocessCount = 1 ∧
    (c3run id some serialSched c3init).t0 = .done (some "raw") ∧
    (c3run id some serialSched c3init).t1 = .done (some "raw") := by
  exact (getSolvers_amended id some).1 "raw" rfl

end YtCipher
